import Mathlib

/-!
# A verification model of the lockllm-npm SDK core

This file gives a shallow embedding, in Lean, of the behavioural core of the
`lockllm-npm` TypeScript SDK: the error taxonomy and mapper (`src/errors.ts`),
the HTTP transport core with its retry loop (`src/utils.ts`), the scan request
builder (`src/scan.ts`), the proxy header codec (`src/utils/proxy-headers.ts`)
and the client constructor (`src/client.ts`).

JavaScript-specific behaviour is modelled explicitly:

* `undefined`/absent values become `Option.none`;
* the `||` operator's falsiness on `""` and `0` is modelled by dedicated
  helpers (`jsStrOrD`, `jsStrOrOpt`, `jsNumOr`) rather than by `Option.getD`;
* exceptions become `Except`/explicit control-flow values;
* platform builtins that the SDK calls (`fetch`, `Date`, `atob`, `JSON.parse`)
  are modelled either as oracle parameters (network, dates) or as concrete
  Lean implementations of their platform specification (base64, JSON).

Machine integers do not overflow in the modelled code paths (delays and
status codes are small), so numbers are `Int`/`Nat`; JSON numeric header
values parsed with `parseFloat` are modelled over `ℚ`, with `none` playing
the role of `NaN`.
-/

namespace LockLLM

/-! ## JavaScript primitive helpers -/

/-- The characters `String.prototype.trim` removes (ASCII whitespace and line
terminators; the SDK only ever meets these). -/
def jsIsWhitespace (c : Char) : Bool :=
  c = ' ' || c = '\t' || c = '\n' || c = '\r' || c = '\x0b' || c = '\x0c'

/-- `String.prototype.trim`. -/
def jsTrim (s : String) : String :=
  String.mk (((s.data.dropWhile jsIsWhitespace).reverse.dropWhile jsIsWhitespace).reverse)

/-- `a || d` for a possibly-absent string `a`: the empty string is falsy. -/
def jsStrOrD (a : Option String) (d : String) : String :=
  match a with
  | some s => if s.isEmpty then d else s
  | none => d

/-- `a || b` for two possibly-absent strings (used for `error.request_id || requestId`
and header fallbacks): the empty string is falsy. -/
def jsStrOrOpt (a b : Option String) : Option String :=
  match a with
  | some s => if s.isEmpty then b else some s
  | none => b

/-- `a || d` for a possibly-absent number `a`: `0` is falsy. -/
def jsNumOr (a : Option Int) (d : Int) : Int :=
  match a with
  | some n => if n = 0 then d else n
  | none => d

/-- Leading decimal digits of a character list, as a number; `none` when the
list does not start with a digit. -/
def leadingDigits (cs : List Char) : Option Nat :=
  let ds := cs.takeWhile Char.isDigit
  if ds.isEmpty then none
  else some (ds.foldl (fun a c => a * 10 + (c.toNat - 48)) 0)

/-- `parseInt(s, 10)`: skip leading whitespace, optional sign, then a leading
run of decimal digits; `none` models `NaN`. -/
def jsParseInt (s : String) : Option Int :=
  match s.data.dropWhile jsIsWhitespace with
  | '-' :: rest => (leadingDigits rest).map (fun n => -(n : Int))
  | '+' :: rest => (leadingDigits rest).map (fun n => (n : Int))
  | cs => (leadingDigits cs).map (fun n => (n : Int))

/-- Does the character list start with the pattern? -/
def startsWithL : List Char → List Char → Bool
  | _, [] => true
  | [], _ :: _ => false
  | c :: cs, d :: ds => c = d && startsWithL cs ds

/-- Does the character list contain the pattern as a contiguous run? -/
def containsL : List Char → List Char → Bool
  | [], pat => pat.isEmpty
  | c :: cs, pat => startsWithL (c :: cs) pat || containsL cs pat

/-- `String.prototype.includes`. -/
def jsIncludes (s pat : String) : Bool :=
  containsL s.data pat.data

/-- ASCII lower-casing of a character (header names are ASCII). -/
def asciiLowerChar (c : Char) : Char :=
  if 'A' ≤ c && c ≤ 'Z' then Char.ofNat (c.toNat + 32) else c

/-- ASCII lower-casing of a string, modelling `String.prototype.toLowerCase`
on header names. -/
def asciiLower (s : String) : String :=
  String.mk (s.data.map asciiLowerChar)

/-! ## Error taxonomy (`src/errors.ts`)

The TypeScript classes become one record type whose `name` field plays the
role of the class tag (`instanceof C` on these classes is `name = "C"`).
Each `mk…` function below is the corresponding class constructor. -/

/-- `ScanResult` from `src/types/errors.ts`. -/
structure ScanResultR where
  safe : Bool
  label : Nat
  confidence : Int
  injection : Int
  sensitivity : String
deriving DecidableEq, Repr

/-- One violated policy entry (`PolicyViolationErrorData`). -/
structure PolicyViolationR where
  policy_name : String
  violated_categories : List String
  violation_details : Option String := none
deriving DecidableEq, Repr

/-- `abuse_details` payload (`AbuseDetectedErrorData`). -/
structure AbuseDetailsR where
  confidence : Int
  abuse_types : List String
  bot_score : Int
  repetition_score : Int
  resource_score : Int
  pattern_score : Int
  recommendation : Option String := none
deriving DecidableEq, Repr

/-- `pii_details` payload (declared by the SDK's tests and changelog; the
checked-in `parseError` never reads it). -/
structure PiiDetailsR where
  entity_types : List String
  entity_count : Nat
deriving DecidableEq, Repr

/-- A non-`LockLLMError` JavaScript exception as the transport loop sees it:
its `name`, `message`, and whether it is a `TypeError`. -/
structure PlainErr where
  name : String
  message : String
  isTypeError : Bool
deriving DecidableEq, Repr

/-- The common error record for every `LockLLMError` subclass.  `name` is the
JavaScript class name; payload fields are `none` on classes that lack them. -/
structure LockErr where
  name : String
  message : String
  etype : String
  code : Option String := none
  status : Option Nat := none
  requestId : Option String := none
  retryAfter : Option Int := none
  scanResult : Option ScanResultR := none
  violated_policies : Option (List PolicyViolationR) := none
  abuse_details : Option AbuseDetailsR := none
  current_balance : Option Int := none
  estimated_cost : Option Int := none
  provider : Option String := none
  upstreamStatus : Option Nat := none
  cause : Option PlainErr := none
deriving DecidableEq, Repr

/-- `new AuthenticationError(message, requestId)`. -/
def mkAuthenticationError (message : String) (requestId : Option String) : LockErr :=
  { name := "AuthenticationError", message, etype := "authentication_error",
    code := some "unauthorized", status := some 401, requestId }

/-- `new RateLimitError(message, retryAfter, requestId)`. -/
def mkRateLimitError (message : String) (retryAfter : Option Int)
    (requestId : Option String) : LockErr :=
  { name := "RateLimitError", message, etype := "rate_limit_error",
    code := some "rate_limited", status := some 429, requestId, retryAfter }

/-- `new PromptInjectionError({...})`: the class hardcodes its type, code and
status regardless of what the envelope carried. -/
def mkPromptInjectionError (message : String) (requestId : Option String)
    (scanResult : ScanResultR) : LockErr :=
  { name := "PromptInjectionError", message, etype := "lockllm_security_error",
    code := some "prompt_injection_detected", status := some 400, requestId,
    scanResult := some scanResult }

/-- `new UpstreamError(message, provider, upstreamStatus, requestId)`. -/
def mkUpstreamError (message : String) (provider : Option String)
    (upstreamStatus : Option Nat) (requestId : Option String) : LockErr :=
  { name := "UpstreamError", message, etype := "upstream_error",
    code := some "provider_error", status := some 502, requestId,
    provider, upstreamStatus }

/-- `new ConfigurationError(message)`. -/
def mkConfigurationError (message : String) : LockErr :=
  { name := "ConfigurationError", message, etype := "configuration_error",
    code := some "invalid_config", status := some 400 }

/-- `new PolicyViolationError({...})`. -/
def mkPolicyViolationError (message : String) (requestId : Option String)
    (violated : List PolicyViolationR) : LockErr :=
  { name := "PolicyViolationError", message, etype := "lockllm_policy_error",
    code := some "policy_violation", status := some 403, requestId,
    violated_policies := some violated }

/-- `new AbuseDetectedError({...})`. -/
def mkAbuseDetectedError (message : String) (requestId : Option String)
    (details : AbuseDetailsR) : LockErr :=
  { name := "AbuseDetectedError", message, etype := "lockllm_abuse_error",
    code := some "abuse_detected", status := some 400, requestId,
    abuse_details := some details }

/-- `new InsufficientCreditsError({...})`. -/
def mkInsufficientCreditsError (message : String) (requestId : Option String)
    (current_balance estimated_cost : Int) : LockErr :=
  { name := "InsufficientCreditsError", message, etype := "lockllm_balance_error",
    code := some "insufficient_credits", status := some 402, requestId,
    current_balance := some current_balance, estimated_cost := some estimated_cost }

/-- `new NetworkError(message, cause, requestId)`. -/
def mkNetworkError (message : String) (cause : Option PlainErr)
    (requestId : Option String) : LockErr :=
  { name := "NetworkError", message, etype := "network_error",
    code := some "connection_failed", status := some 0, requestId, cause }

/-- The fields of a decoded error envelope's `error` object that the SDK ever
reads; every one may be absent, mirroring duck-typed access.  `pii_details`
is carried by 1.2.0+ envelopes (per the repo's tests) but never read by the
checked-in mapper. -/
structure ErrEnv where
  message : Option String := none
  etype : Option String := none
  code : Option String := none
  request_id : Option String := none
  scan_result : Option ScanResultR := none
  violated_policies : Option (List PolicyViolationR) := none
  abuse_details : Option AbuseDetailsR := none
  pii_details : Option PiiDetailsR := none
  current_balance : Option Int := none
  estimated_cost : Option Int := none
deriving DecidableEq, Repr

/-- `error.message` handed to an error-class constructor: `new Error(undefined)`
yields an empty message. -/
def msgOf (m : Option String) : String := m.getD ""

/-- `parseError(response, requestId)` from `src/errors.ts`.  The argument is
`response?.error` (`none` both when the response is absent and when it has no
truthy `error` field).  Branches are in source order; the first match wins. -/
def parseError (error : Option ErrEnv) (requestId : Option String) : LockErr :=
  match error with
  | none =>
    { name := "LockLLMError", message := "Unknown error occurred",
      etype := "unknown_error", requestId }
  | some e =>
    if e.code = some "prompt_injection_detected" ∧ e.scan_result.isSome then
      mkPromptInjectionError (msgOf e.message) (jsStrOrOpt e.request_id requestId)
        (e.scan_result.getD ⟨false, 0, 0, 0, ""⟩)
    else if e.code = some "policy_violation" ∧ e.violated_policies.isSome then
      mkPolicyViolationError (msgOf e.message) (jsStrOrOpt e.request_id requestId)
        (e.violated_policies.getD [])
    else if e.code = some "abuse_detected" ∧ e.abuse_details.isSome then
      mkAbuseDetectedError (msgOf e.message) (jsStrOrOpt e.request_id requestId)
        (e.abuse_details.getD ⟨0, [], 0, 0, 0, 0, none⟩)
    else if e.code = some "insufficient_credits" then
      mkInsufficientCreditsError (msgOf e.message) (jsStrOrOpt e.request_id requestId)
        (e.current_balance.getD 0) (e.estimated_cost.getD 0)
    else if e.etype = some "authentication_error" ∨ e.code = some "unauthorized" then
      mkAuthenticationError (msgOf e.message) requestId
    else if e.etype = some "rate_limit_error" ∨ e.code = some "rate_limited" then
      mkRateLimitError (msgOf e.message) none requestId
    else if e.etype = some "upstream_error" ∨ e.code = some "provider_error" then
      mkUpstreamError (msgOf e.message) none none requestId
    else if e.etype = some "configuration_error" ∨ e.etype = some "lockllm_config_error"
        ∨ e.code = some "no_upstream_key" then
      mkConfigurationError (msgOf e.message)
    else
      { name := "LockLLMError", message := jsStrOrD e.message "An error occurred",
        etype := jsStrOrD e.etype "unknown_error", code := e.code, requestId }

/-! ## Transport core (`src/utils.ts`)

`fetch`, `Date.now`, `new Date(string)` and `Math.random` are platform
builtins; the embedding takes them as oracle parameters: `oracle n` is what
the `n`-th `fetch` attempt of one logical request produces, `dateParse` is
HTTP-date parsing, `now` is `Date.now()`, and the generated request id is a
parameter.  The loop itself — retry bookkeeping, the catch block, error
wrapping — is translated statement by statement from `HttpClient.request`. -/

/-- `parseRetryAfter(retryAfter)` from `src/utils.ts`, in milliseconds;
`none` is `undefined`.  `dateParse` models `new Date(string).getTime()`
(`none` = invalid date) and `now` models `Date.now()`. -/
def parseRetryAfter (dateParse : String → Option Int) (now : Int)
    (retryAfter : Option String) : Option Int :=
  match retryAfter with
  | none => none
  | some s =>
    if s.isEmpty then none
    else
      match jsParseInt s with
      | some seconds => some (seconds * 1000)
      | none =>
        match dateParse s with
        | some t => some (max 0 (t - now))
        | none => none

/-- `calculateBackoff(attempt, baseDelay)` from `src/utils.ts`. -/
def calculateBackoff (attempt : Nat) (baseDelay : Int := 1000) : Int :=
  min (baseDelay * 2 ^ attempt) 30000

/-- `baseURL.replace(/\/$/, '')` in the `HttpClient` constructor: remove one
trailing slash when present. -/
def stripTrailingSlash (s : String) : String :=
  match s.data.getLast? with
  | some '/' => String.mk s.data.dropLast
  | _ => s

/-- Does the string end in a slash (the condition `/\/$/` matches)? -/
def endsWithSlash (s : String) : Bool :=
  s.data.getLast? = some '/'

/-- The URL the transport targets for a configured base URL and a path
(`const url = ⟨baseURL⟩⟨path⟩` after constructor normalisation). -/
def requestURL (baseURL path : String) : String :=
  stripTrailingSlash baseURL ++ path

/-- What one `fetch` attempt returned, as far as the retry loop inspects it:
`ok`/`status`, the two headers it reads, and the result of `response.json()`.
`body = none` models a rejected `json()`; `body = some none` a JSON body with
no truthy `error` field; `body = some (some env)` a decoded error envelope.
`dataVal` stands for the decoded success payload. -/
structure MockResponse where
  ok : Bool
  status : Nat
  xRequestId : Option String := none
  retryAfter : Option String := none
  body : Option (Option ErrEnv) := some none
  dataVal : Nat := 0
deriving DecidableEq, Repr

/-- The environment's answer to one `fetch` call: a response, or a thrown
platform exception (network `TypeError`, `AbortError` from timeout or caller
cancellation, …). -/
inductive AttemptOutcome where
  | resp (r : MockResponse)
  | throws (e : PlainErr)
deriving DecidableEq, Repr

/-- A value reaching the `catch` block: a typed `LockLLMError` or a plain
JavaScript exception. -/
inductive Thrown where
  | lock (e : LockErr)
  | plain (e : PlainErr)
deriving DecidableEq, Repr

/-- `HttpClient.isRetryableError(error)`: network `TypeError`s mentioning
`fetch`, `AbortError`s, and `RateLimitError`s. -/
def isRetryableError : Thrown → Bool
  | .lock e => e.name = "RateLimitError"
  | .plain p => (p.isTypeError && jsIncludes p.message "fetch") || p.name = "AbortError"

/-- The error thrown when `response.json()` rejects on a 2xx response. -/
def jsonDecodeFailure : PlainErr :=
  { name := "SyntaxError", message := "Unexpected token in JSON", isTypeError := false }

/-- How one iteration of the `try` block in `HttpClient.request` ends:
`ret` is the `return` on 2xx, `continue429` the slept-and-`continue` path of
a 429 with attempts remaining (carrying the slept delay), `caught` a value
reaching the `catch` block. -/
inductive TryOutcome where
  | ret (dataVal : Nat) (requestId : String)
  | continue429 (delay : Int)
  | caught (t : Thrown)
deriving DecidableEq, Repr

/-- One iteration of the `try` block of `HttpClient.request`, for attempt
number `n` (0-based) with `maxRetries = mr`. -/
def tryBody (mr : Nat) (oracle : Nat → AttemptOutcome)
    (dateParse : String → Option Int) (now : Int) (requestId : String)
    (n : Nat) : TryOutcome :=
  match oracle n with
  | .throws pe => .caught (.plain pe)
  | .resp r =>
    let responseRequestId := jsStrOrD r.xRequestId requestId
    if r.ok then
      match r.body with
      | some _ => .ret r.dataVal responseRequestId
      | none => .caught (.plain jsonDecodeFailure)
    else if r.status = 429 then
      let retryAfterMs := parseRetryAfter dateParse now r.retryAfter
      if n < mr then
        .continue429 (jsNumOr retryAfterMs (calculateBackoff n))
      else
        let errorData := r.body.getD none
        .caught (.lock (mkRateLimitError
          (jsStrOrD (errorData.bind (·.message)) "Rate limit exceeded")
          retryAfterMs (some responseRequestId)))
    else
      let errorData := r.body.getD none
      .caught (.lock (parseError errorData (some responseRequestId)))

/-- The observable outcome of one `HttpClient.request` call: the returned
data (or thrown typed error), how many `fetch` attempts were issued, and the
sequence of `sleep` durations in milliseconds. -/
structure RunResult where
  result : Except LockErr (Nat × String)
  attempts : Nat
  sleeps : List Int
deriving Repr

/-- The code after the loop: rethrow a typed `lastError`, otherwise wrap it
in a `NetworkError` carrying the originally generated request id. -/
def finalize (requestId : String) (lastError : Option Thrown)
    (attempts : Nat) (sleeps : List Int) : RunResult :=
  match lastError with
  | some (.lock e) => { result := .error e, attempts, sleeps }
  | some (.plain p) =>
    { result := .error (mkNetworkError (jsStrOrD (some p.message) "Network request failed")
        (some p) (some requestId)), attempts, sleeps }
  | none =>
    { result := .error (mkNetworkError "Network request failed" none (some requestId)),
      attempts, sleeps }

/-- The retry loop of `HttpClient.request`.  `k` is the remaining iteration
budget (initially `maxRetries + 1`), `n` the current attempt index, and
`lastError`/`sleeps` the loop-carried state. -/
def runAux (mr : Nat) (oracle : Nat → AttemptOutcome)
    (dateParse : String → Option Int) (now : Int) (requestId : String) :
    Nat → Nat → Option Thrown → List Int → RunResult
  | 0, n, lastError, sleeps => finalize requestId lastError n sleeps
  | k + 1, n, lastError, sleeps =>
    match tryBody mr oracle dateParse now requestId n with
    | .ret dataVal rid => { result := .ok (dataVal, rid), attempts := n + 1, sleeps }
    | .continue429 delay =>
      runAux mr oracle dateParse now requestId k (n + 1) lastError (sleeps ++ [delay])
    | .caught t =>
      match t with
      | .lock e =>
        if e.name ≠ "RateLimitError" then
          { result := .error e, attempts := n + 1, sleeps }
        else if n < mr && isRetryableError t then
          runAux mr oracle dateParse now requestId k (n + 1) (some t)
            (sleeps ++ [calculateBackoff n])
        else finalize requestId (some t) (n + 1) sleeps
      | .plain _ =>
        if n < mr && isRetryableError t then
          runAux mr oracle dateParse now requestId k (n + 1) (some t)
            (sleeps ++ [calculateBackoff n])
        else finalize requestId (some t) (n + 1) sleeps

/-- `HttpClient.request`: run the retry loop from attempt 0 with budget
`maxRetries + 1`. -/
def runRequest (mr : Nat) (oracle : Nat → AttemptOutcome)
    (dateParse : String → Option Int) (now : Int) (requestId : String) : RunResult :=
  runAux mr oracle dateParse now requestId (mr + 1) 0 none []

/-- The attempt outcomes after which the checked-in loop will retry (given
attempts remain): an HTTP 429 response, a retryable transport throw, or a
non-429 response whose decoded error body maps to a `RateLimitError`. -/
def retriableOutcome (rid : String) (o : AttemptOutcome) : Prop :=
  (∃ r, o = .resp r ∧ r.ok = false ∧ r.status = 429)
  ∨ (∃ pe, o = .throws pe ∧ isRetryableError (.plain pe) = true)
  ∨ (∃ r, o = .resp r ∧ r.ok = false ∧ r.status ≠ 429
      ∧ (parseError (r.body.getD none) (some (jsStrOrD r.xRequestId rid))).name
          = "RateLimitError")

/-! ## Proxy header codec (`src/utils/proxy-headers.ts`) -/

/-- Value of a list of decimal digit characters. -/
def digitsVal (ds : List Char) : Nat :=
  ds.foldl (fun a c => a * 10 + (c.toNat - 48)) 0

/-- Magnitude part of `parseFloat`: digits, optional fraction, optional
exponent (the exponent only counts when at least one exponent digit
follows, as in `parseFloat("1e") = 1`).  `none` models `NaN`. -/
def parseFloatMag (cs : List Char) : Option ℚ :=
  let ds := cs.takeWhile Char.isDigit
  let cs1 := cs.drop ds.length
  let fs := match cs1 with
    | '.' :: r => r.takeWhile Char.isDigit
    | _ => []
  let cs2 := match cs1 with
    | '.' :: r => r.drop fs.length
    | _ => cs1
  if ds.isEmpty && fs.isEmpty then none
  else
    let mant : ℚ := (digitsVal ds : ℚ) + (digitsVal fs : ℚ) / (10 : ℚ) ^ fs.length
    let expo : Int :=
      match cs2 with
      | 'e' :: r | 'E' :: r =>
        match r with
        | '-' :: r2 => -((leadingDigits r2).getD 0 : Int) *
            (if (r2.takeWhile Char.isDigit).isEmpty then 0 else 1)
        | '+' :: r2 => ((leadingDigits r2).getD 0 : Int) *
            (if (r2.takeWhile Char.isDigit).isEmpty then 0 else 1)
        | _ => ((leadingDigits r).getD 0 : Int) *
            (if (r.takeWhile Char.isDigit).isEmpty then 0 else 1)
      | _ => 0
    some (mant * (10 : ℚ) ^ expo)

/-- `parseFloat(s)` over `ℚ` (decimal notation; `none` models `NaN`).
Rationals represent the parsed decimal exactly; the SDK only compares and
stores these values, so double rounding is irrelevant to the claims. -/
def jsParseFloat (s : String) : Option ℚ :=
  match s.data.dropWhile jsIsWhitespace with
  | '-' :: rest => (parseFloatMag rest).map Neg.neg
  | '+' :: rest => parseFloatMag rest
  | cs => parseFloatMag cs

/-- `x ? parseFloat(x) : 0` for a header lookup result. -/
def jsParsedFloatOrZero (a : Option String) : Option ℚ :=
  match a with
  | some s => if s.isEmpty then some 0 else jsParseFloat s
  | none => some 0

/-- `x ? parseInt(x, 10) : 0` for a header lookup result. -/
def jsParsedIntOrZero (a : Option String) : Option Int :=
  match a with
  | some s => if s.isEmpty then some 0 else jsParseInt s
  | none => some 0

/-- `x || undefined` for a header lookup result. -/
def jsStrOrNone (a : Option String) : Option String :=
  match a with
  | some s => if s.isEmpty then none else some s
  | none => none

/-- `if (x) field = parseFloat(x)` — assignment gated on truthiness; the
outer `Option` is presence, the inner `none` models `NaN`. -/
def jsGateParseFloat (a : Option String) : Option (Option ℚ) :=
  match a with
  | some s => if s.isEmpty then none else some (jsParseFloat s)
  | none => none

/-- `if (x) field = parseInt(x, 10)` — assignment gated on truthiness. -/
def jsGateParseInt (a : Option String) : Option (Option Int) :=
  match a with
  | some s => if s.isEmpty then none else some (jsParseInt s)
  | none => none

/-- `ProxyRequestOptions` from `src/types/common.ts` (the 1.3.0 field set).
Opt-in actions use `Option (Option _)`: the outer layer is
`undefined`/present, the inner layer is the explicit `null` sentinel.
`compressionRate` is a number; the model carries its decimal rendering,
which is all the header builder could use of it. -/
structure ProxyRequestOptions where
  scanMode : Option String := none
  scanAction : Option String := none
  policyAction : Option String := none
  abuseAction : Option (Option String) := none
  routeAction : Option String := none
  piiAction : Option (Option String) := none
  sensitivity : Option String := none
  cacheResponse : Option Bool := none
  cacheTTL : Option Int := none
  compressionAction : Option (Option String) := none
  compressionRate : Option String := none
deriving DecidableEq, Repr

/-- `if (x) headers[key] = x` for an optional string option. -/
def emitIfTruthy (key : String) (v : Option String) : List (String × String) :=
  match v with
  | some s => if s.isEmpty then [] else [(key, s)]
  | none => []

/-- `if (x !== undefined && x !== null) headers[key] = x` for an opt-in
action. -/
def emitUnlessNull (key : String) (v : Option (Option String)) : List (String × String) :=
  match v with
  | some (some s) => [(key, s)]
  | _ => []

/-- `buildLockLLMHeaders(options)` from `src/utils/proxy-headers.ts`, in
emission order.  The checked-in implementation handles exactly scan-mode,
scan-action, policy-action, abuse-action, route-action, cache-response and
cache-TTL; it reads none of the PII, sensitivity or compression options. -/
def buildLockLLMHeaders (options : Option ProxyRequestOptions) : List (String × String) :=
  emitIfTruthy "x-lockllm-scan-mode" (options.bind (·.scanMode))
  ++ emitIfTruthy "x-lockllm-scan-action" (options.bind (·.scanAction))
  ++ emitIfTruthy "x-lockllm-policy-action" (options.bind (·.policyAction))
  ++ emitUnlessNull "x-lockllm-abuse-action" (options.bind (·.abuseAction))
  ++ emitIfTruthy "x-lockllm-route-action" (options.bind (·.routeAction))
  ++ (if options.bind (·.cacheResponse) = some false
      then [("x-lockllm-cache-response", "false")] else [])
  ++ (match options.bind (·.cacheTTL) with
      | some n => [("x-lockllm-cache-ttl", toString n)]
      | none => [])

/-- A response-header source as `parseProxyMetadata` accepts it: a `Headers`
collection or a plain string-keyed record. -/
inductive HeaderSource where
  | headersObj (hs : List (String × String))
  | plain (m : List (String × String))
deriving DecidableEq, Repr

/-- `Headers.prototype.get`: case-insensitive name match (first entry; a
`Headers` built from a record has distinct names). -/
def headersGet (hs : List (String × String)) (name : String) : Option String :=
  (hs.find? (fun p => asciiLower p.1 = asciiLower name)).map (·.2)

/-- Plain-record lookup from the source's local `getHeader`:
`headers[name] || headers[name.toLowerCase()] || null`. -/
def plainGet (m : List (String × String)) (name : String) : Option String :=
  jsStrOrOpt ((m.find? (fun p => p.1 = name)).map (·.2))
    (jsStrOrOpt ((m.find? (fun p => p.1 = asciiLower name)).map (·.2)) none)

/-- The local `getHeader` closure in `parseProxyMetadata`. -/
def getHeader : HeaderSource → String → Option String
  | .headersObj hs, name => headersGet hs name
  | .plain m, name => plainGet m name

/-- `scan_warning` sub-record of the parsed metadata. -/
structure ScanWarningM where
  injection_score : Option ℚ
  confidence : Option ℚ
  detail : String
deriving DecidableEq, Repr

/-- `policy_warnings` sub-record of the parsed metadata. -/
structure PolicyWarningsM where
  count : Option Int
  confidence : Option ℚ
  detail : String
deriving DecidableEq, Repr

/-- `abuse_detected` sub-record of the parsed metadata. -/
structure AbuseDetectedM where
  confidence : Option ℚ
  types : String
  detail : String
deriving DecidableEq, Repr

/-- `routing` sub-record of the parsed metadata. -/
structure RoutingM where
  enabled : Bool
  task_type : String
  complexity : Option ℚ
  selected_model : String
  routing_reason : String
  original_provider : String
  original_model : String
  estimated_savings : Option ℚ
deriving DecidableEq, Repr

/-- The metadata record `parseProxyMetadata` produces (fields the checked-in
implementation assigns).  Inner `none` on numeric fields models `NaN`. -/
structure ProxyMetadataM where
  request_id : String
  scanned : Bool
  safe : Bool
  scan_mode : String
  credits_mode : String
  provider : String
  model : Option String
  scan_warning : Option ScanWarningM
  policy_warnings : Option PolicyWarningsM
  abuse_detected : Option AbuseDetectedM
  routing : Option RoutingM
  credits_reserved : Option (Option ℚ)
  routing_fee_reserved : Option (Option ℚ)
  cache_status : Option String
  cache_age : Option (Option Int)
  tokens_saved : Option (Option Int)
  cost_saved : Option (Option ℚ)
  credits_deducted : Option (Option ℚ)
  balance_after : Option (Option ℚ)
deriving DecidableEq, Repr

/-- Body of `parseProxyMetadata`, factored over the header getter exactly as
the source factors it over its local `getHeader` closure. -/
def parseProxyMetadataCore (g : String → Option String) : ProxyMetadataM :=
  { request_id := jsStrOrD (g "x-request-id") ""
    scanned := g "x-lockllm-scanned" = some "true"
    safe := g "x-lockllm-safe" = some "true"
    scan_mode := jsStrOrD (g "x-scan-mode") "combined"
    credits_mode := jsStrOrD (g "x-lockllm-credits-mode") "byok"
    provider := jsStrOrD (g "x-lockllm-provider") ""
    model := jsStrOrNone (g "x-lockllm-model")
    scan_warning :=
      if g "x-lockllm-scan-warning" = some "true" then
        some { injection_score := jsParsedFloatOrZero (g "x-lockllm-injection-score")
               confidence := jsParsedFloatOrZero (g "x-lockllm-confidence")
               detail := jsStrOrD (g "x-lockllm-scan-detail") "" }
      else none
    policy_warnings :=
      if g "x-lockllm-policy-warnings" = some "true" then
        some { count := jsParsedIntOrZero (g "x-lockllm-warning-count")
               confidence := jsParsedFloatOrZero (g "x-lockllm-policy-confidence")
               detail := jsStrOrD (g "x-lockllm-warning-detail") "" }
      else none
    abuse_detected :=
      if g "x-lockllm-abuse-detected" = some "true" then
        some { confidence := jsParsedFloatOrZero (g "x-lockllm-abuse-confidence")
               types := jsStrOrD (g "x-lockllm-abuse-types") ""
               detail := jsStrOrD (g "x-lockllm-abuse-detail") "" }
      else none
    routing :=
      if g "x-lockllm-route-enabled" = some "true" then
        some { enabled := true
               task_type := jsStrOrD (g "x-lockllm-task-type") ""
               complexity := jsParsedFloatOrZero (g "x-lockllm-complexity")
               selected_model := jsStrOrD (g "x-lockllm-selected-model") ""
               routing_reason := jsStrOrD (g "x-lockllm-routing-reason") ""
               original_provider := jsStrOrD (g "x-lockllm-original-provider") ""
               original_model := jsStrOrD (g "x-lockllm-original-model") ""
               estimated_savings := jsParsedFloatOrZero (g "x-lockllm-estimated-savings") }
      else none
    credits_reserved := jsGateParseFloat (g "x-lockllm-credits-reserved")
    routing_fee_reserved := jsGateParseFloat (g "x-lockllm-routing-fee-reserved")
    cache_status := jsStrOrNone (g "x-lockllm-cache-status")
    cache_age := jsGateParseInt (g "x-lockllm-cache-age")
    tokens_saved := jsGateParseInt (g "x-lockllm-tokens-saved")
    cost_saved := jsGateParseFloat (g "x-lockllm-cost-saved")
    credits_deducted := jsGateParseFloat (g "x-lockllm-credits-deducted")
    balance_after := jsGateParseFloat (g "x-lockllm-balance-after") }

/-- `parseProxyMetadata(headers)` from `src/utils/proxy-headers.ts`. -/
def parseProxyMetadata (headers : HeaderSource) : ProxyMetadataM :=
  parseProxyMetadataCore (getHeader headers)

/-- Lookup results that the metadata parser cannot distinguish: equal, or an
empty string against an absent one (both falsy to every use site). -/
def falsyEquiv (a b : Option String) : Prop :=
  a = b ∨ (a = some "" ∧ b = none)


/-! ## Scan request builder (`src/scan.ts`) -/

/-- `ScanRequest` from `src/types/scan.ts`. -/
structure ScanRequest where
  input : String
  sensitivity : Option String := none
  mode : Option String := none
  chunk : Option Bool := none
deriving DecidableEq, Repr

/-- `ScanOptions`: the option set the repo's tests and changelog document
(1.3.0), including the opt-in PII and compression controls.  The checked-in
`scan` implementation reads only the first three action fields plus
`headers`/`timeout`/`signal`. -/
structure ScanOptions where
  scanAction : Option String := none
  policyAction : Option String := none
  abuseAction : Option (Option String) := none
  piiAction : Option (Option String) := none
  compressionAction : Option (Option String) := none
  compressionRate : Option String := none
  headers : Option (List (String × String)) := none
  timeout : Option Int := none
  signal : Bool := false
deriving DecidableEq, Repr

/-- JavaScript object assignment `obj[k] = v`: overwrite in place or append. -/
def setHeader (hs : List (String × String)) (k v : String) : List (String × String) :=
  if hs.any (fun p => p.1 = k) then
    hs.map (fun p => if p.1 = k then (k, v) else p)
  else hs ++ [(k, v)]

/-- The header object `ScanClient.scan` builds, assignments in source
order. -/
def scanHeaders (request : ScanRequest) (options : Option ScanOptions) :
    List (String × String) :=
  let h0 := (options.bind (·.headers)).getD []
  let h1 := match request.mode with
    | some m => if m.isEmpty then h0 else setHeader h0 "x-lockllm-scan-mode" m
    | none => h0
  let h2 := match request.sensitivity with
    | some s => if s.isEmpty then h1 else setHeader h1 "x-lockllm-sensitivity" s
    | none => h1
  let h3 := match request.chunk with
    | some b => setHeader h2 "x-lockllm-chunk" (if b then "true" else "false")
    | none => h2
  let h4 := match options.bind (·.scanAction) with
    | some a => if a.isEmpty then h3 else setHeader h3 "x-lockllm-scan-action" a
    | none => h3
  let h5 := match options.bind (·.policyAction) with
    | some a => if a.isEmpty then h4 else setHeader h4 "x-lockllm-policy-action" a
    | none => h4
  match options.bind (·.abuseAction) with
  | some (some a) => setHeader h5 "x-lockllm-abuse-action" a
  | _ => h5

/-- The outbound call `ScanClient.scan` hands the transport core. -/
structure ScanCall where
  path : String
  body : List (String × String)
  headers : List (String × String)
  timeout : Option Int
  signal : Bool
deriving DecidableEq, Repr

/-- `ScanClient.scan(request, options)`: the request it issues.  The body is
built as `{ input: request.input }` only. -/
def scan (request : ScanRequest) (options : Option ScanOptions) : ScanCall :=
  { path := "/v1/scan"
    body := [("input", request.input)]
    headers := scanHeaders request options
    timeout := options.bind (·.timeout)
    signal := (options.map (·.signal)).getD false }

/-! ## Client construction (`src/client.ts`) -/

/-- `LockLLMConfig` from `src/types/common.ts`. -/
structure LockLLMConfig where
  apiKey : String
  baseURL : Option String := none
  timeout : Option Int := none
  maxRetries : Option Nat := none
deriving DecidableEq, Repr

/-- The `Required<LockLLMConfig>` the client stores. -/
structure ResolvedConfig where
  apiKey : String
  baseURL : String
  timeout : Int
  maxRetries : Nat
deriving DecidableEq, Repr

/-- The `LockLLM` constructor: validate the key, then resolve defaults with
`??`.  It performs no I/O — the `HttpClient` constructor only stores the
normalised configuration — so a thrown `ConfigurationError` precedes any
network activity by construction. -/
def mkLockLLM (config : LockLLMConfig) : Except LockErr ResolvedConfig :=
  if config.apiKey = "" ∨ jsTrim config.apiKey = "" then
    .error (mkConfigurationError
      "API key is required. Get your API key from https://www.lockllm.com/dashboard")
  else
    .ok { apiKey := config.apiKey
          baseURL := config.baseURL.getD "https://api.lockllm.com"
          timeout := config.timeout.getD 60000
          maxRetries := config.maxRetries.getD 3 }

/-- `LockLLM.getConfig()`: a copy of the stored (read-only) configuration. -/
def getConfig (c : ResolvedConfig) : ResolvedConfig := c

/-- The state the `HttpClient` constructor stores. -/
structure HttpClientState where
  baseURL : String
  apiKey : String
  timeout : Int
  maxRetries : Nat
deriving DecidableEq, Repr

/-- The `HttpClient` constructor (`src/utils.ts`): the base URL is stored
with one trailing slash removed. -/
def mkHttpClient (baseURL apiKey : String) (timeout : Int := 60000)
    (maxRetries : Nat := 3) : HttpClientState :=
  { baseURL := stripTrailingSlash baseURL, apiKey, timeout, maxRetries }

/-! ## Base64 (`atob`/`btoa`) and JSON (`JSON.stringify`/`JSON.parse`)

`decodeDetailField` composes three platform builtins inside a `try`/`catch`.
The builtins are standardised, so the model implements them concretely:
base64 per RFC 4648 with padding (`btoa` rejects code points above `0xFF`;
`atob` rejects what forgiving-base64 cannot interpret), and JSON with
integer numerals (the SDK's detail payloads use scores and counts; fractional
doubles are outside this model). -/

/-- The base64 alphabet. -/
def b64Char (n : Nat) : Char :=
  if n < 26 then Char.ofNat (65 + n)
  else if n < 52 then Char.ofNat (97 + (n - 26))
  else if n < 62 then Char.ofNat (48 + (n - 52))
  else if n = 62 then '+'
  else '/'

/-- Inverse of the base64 alphabet; `none` for non-alphabet characters
(including `=`). -/
def b64Val (c : Char) : Option Nat :=
  if 'A' ≤ c ∧ c ≤ 'Z' then some (c.toNat - 65)
  else if 'a' ≤ c ∧ c ≤ 'z' then some (c.toNat - 97 + 26)
  else if '0' ≤ c ∧ c ≤ '9' then some (c.toNat - 48 + 52)
  else if c = '+' then some 62
  else if c = '/' then some 63
  else none

/-- Base64 encoding of a byte list, three bytes at a time, with padding. -/
def b64Encode : List Nat → List Char
  | [] => []
  | [b1] => [b64Char (b1 / 4), b64Char (b1 % 4 * 16), '=', '=']
  | [b1, b2] => [b64Char (b1 / 4), b64Char (b1 % 4 * 16 + b2 / 16), b64Char (b2 % 16 * 4), '=']
  | b1 :: b2 :: b3 :: rest =>
    b64Char (b1 / 4) :: b64Char (b1 % 4 * 16 + b2 / 16) ::
      b64Char (b2 % 16 * 4 + b3 / 64) :: b64Char (b3 % 64) :: b64Encode rest

/-- Base64 decoding of a character list; `none` on any malformed input
(wrong length, stray characters, early padding). -/
def b64Decode : List Char → Option (List Nat)
  | [] => some []
  | a :: b :: c :: d :: rest =>
    match b64Val a, b64Val b with
    | some v1, some v2 =>
      if c = '=' then
        if d = '=' ∧ rest = [] then some [v1 * 4 + v2 / 16] else none
      else
        match b64Val c with
        | some v3 =>
          if d = '=' then
            if rest = [] then some [v1 * 4 + v2 / 16, v2 % 16 * 16 + v3 / 4] else none
          else
            match b64Val d with
            | some v4 =>
              (b64Decode rest).map
                (fun bs => (v1 * 4 + v2 / 16) :: (v2 % 16 * 16 + v3 / 4) :: (v3 % 4 * 64 + v4) :: bs)
            | none => none
        | none => none
    | _, _ => none
  | _ => none

/-- Is every character of the string a Latin-1 code point (what `btoa`
accepts)? -/
def strLatin1 (s : String) : Bool :=
  s.data.all (fun c => c.toNat < 256)

/-- `btoa(s)`: base64 of the string's code points; `none` models the
`InvalidCharacterError` thrown on code points above `0xFF`. -/
def btoa (s : String) : Option String :=
  if strLatin1 s then some (String.mk (b64Encode (s.data.map Char.toNat)))
  else none

/-- `atob(s)`: decode to a binary string; `none` models the thrown
`InvalidCharacterError`. -/
def atob (s : String) : Option String :=
  (b64Decode s.data).map (fun bs => String.mk (bs.map Char.ofNat))

/-- The JSON data model (numbers restricted to integers; object fields in
document order). -/
inductive Json where
  | null
  | bool (b : Bool)
  | num (n : Int)
  | str (s : String)
  | arr (elems : List Json)
  | obj (fields : List (String × Json))
deriving Repr

/-- Decimal digits of a natural number, most significant first, onto an
accumulator. -/
def natToCharsAux : Nat → List Char → List Char
  | n, acc =>
    if n < 10 then Char.ofNat (48 + n) :: acc
    else natToCharsAux (n / 10) (Char.ofNat (48 + n % 10) :: acc)
decreasing_by exact Nat.div_lt_self (by omega) (by omega)

/-- Decimal digits of a natural number. -/
def natToChars (n : Nat) : List Char :=
  natToCharsAux n []

/-- Decimal rendering of an integer, as `JSON.stringify` emits it. -/
def intToChars (n : Int) : List Char :=
  if n < 0 then '-' :: natToChars n.natAbs else natToChars n.toNat

/-- Lowercase hexadecimal digit. -/
def hexDigitChar (n : Nat) : Char :=
  if n < 10 then Char.ofNat (48 + n) else Char.ofNat (97 + (n - 10))

/-- How `JSON.stringify` escapes one string character. -/
def escapeChar (c : Char) : List Char :=
  if c = '"' then ['\\', '"']
  else if c = '\\' then ['\\', '\\']
  else if c = '\x08' then ['\\', 'b']
  else if c = '\t' then ['\\', 't']
  else if c = '\n' then ['\\', 'n']
  else if c = '\x0c' then ['\\', 'f']
  else if c = '\r' then ['\\', 'r']
  else if c.toNat < 32 then
    ['\\', 'u', '0', '0', hexDigitChar (c.toNat / 16), hexDigitChar (c.toNat % 16)]
  else [c]

/-- Escaped string content followed by the closing quote. -/
def escapeList : List Char → List Char
  | [] => ['"']
  | c :: cs => escapeChar c ++ escapeList cs

/-- `JSON.stringify` of a string value. -/
def escapeString (s : String) : List Char :=
  '"' :: escapeList s.data

mutual

/-- `JSON.stringify` (compact form, as the SDK calls it). -/
def serJson : Json → List Char
  | .num n => intToChars n
  | .str s => escapeString s
  | .null => ['n', 'u', 'l', 'l']
  | .bool false => ['f', 'a', 'l', 's', 'e']
  | .bool true => ['t', 'r', 'u', 'e']
  | .arr [] => ['[', ']']
  | .arr (v :: vs) => '[' :: (serJson v ++ serElems vs) ++ [']']
  | .obj [] => ['\x7b', '\x7d']
  | .obj ((k, v) :: fs) =>
    '\x7b' :: (escapeString k ++ ':' :: serJson v ++ serFields fs) ++ ['\x7d']

/-- Remaining array elements, each preceded by a comma. -/
def serElems : List Json → List Char
  | [] => []
  | v :: vs => ',' :: (serJson v ++ serElems vs)

/-- Remaining object fields, each preceded by a comma. -/
def serFields : List (String × Json) → List Char
  | [] => []
  | (k, v) :: fs => ',' :: (escapeString k ++ ':' :: serJson v ++ serFields fs)

end

/-- `JSON.stringify(v)`. -/
def jsonStringify (v : Json) : String :=
  String.mk (serJson v)

/-- JSON whitespace. -/
def jsonWsChar (c : Char) : Bool :=
  c = ' ' || c = '\t' || c = '\n' || c = '\r'

/-- Skip JSON whitespace. -/
def skipWs (cs : List Char) : List Char :=
  cs.dropWhile jsonWsChar

/-- Hexadecimal digit value. -/
def hexVal (c : Char) : Option Nat :=
  if '0' ≤ c ∧ c ≤ '9' then some (c.toNat - 48)
  else if 'a' ≤ c ∧ c ≤ 'f' then some (c.toNat - 97 + 10)
  else if 'A' ≤ c ∧ c ≤ 'F' then some (c.toNat - 65 + 10)
  else none

/-- Parse the body of a JSON string (after the opening quote) up to and
including the closing quote; returns content and remaining input. -/
def parseStringBody : List Char → Option (List Char × List Char)
  | [] => none
  | c :: rest =>
    if c = '"' then some ([], rest)
    else if c = '\\' then
      match rest with
      | e :: rest2 =>
        if e = '"' then (parseStringBody rest2).map (fun p => ('"' :: p.1, p.2))
        else if e = '\\' then (parseStringBody rest2).map (fun p => ('\\' :: p.1, p.2))
        else if e = '/' then (parseStringBody rest2).map (fun p => ('/' :: p.1, p.2))
        else if e = 'b' then (parseStringBody rest2).map (fun p => ('\x08' :: p.1, p.2))
        else if e = 'f' then (parseStringBody rest2).map (fun p => ('\x0c' :: p.1, p.2))
        else if e = 'n' then (parseStringBody rest2).map (fun p => ('\n' :: p.1, p.2))
        else if e = 'r' then (parseStringBody rest2).map (fun p => ('\r' :: p.1, p.2))
        else if e = 't' then (parseStringBody rest2).map (fun p => ('\t' :: p.1, p.2))
        else if e = 'u' then
          match rest2 with
          | h1 :: h2 :: h3 :: h4 :: rest3 =>
            match hexVal h1, hexVal h2, hexVal h3, hexVal h4 with
            | some a, some b, some c2, some d =>
              (parseStringBody rest3).map
                (fun p => (Char.ofNat (((a * 16 + b) * 16 + c2) * 16 + d) :: p.1, p.2))
            | _, _, _, _ => none
          | _ => none
        else none
      | [] => none
    else if c.toNat < 32 then none
    else (parseStringBody rest).map (fun p => (c :: p.1, p.2))

/-- Parse a run of digits as a number token. -/
def parseNumFrom (cs : List Char) : Option (Json × List Char) :=
  let ds := cs.takeWhile Char.isDigit
  if ds.isEmpty then none
  else some (.num (digitsVal ds : Int), cs.drop ds.length)

mutual

/-- Fueled recursive-descent JSON value parser.  The fuel only bounds
recursion depth; `jsonParse` supplies more than any input can consume. -/
def parseVal : Nat → List Char → Option (Json × List Char)
  | 0, _ => none
  | fuel + 1, cs =>
    match skipWs cs with
    | [] => none
    | c :: rest =>
      if c = 'n' then
        match rest with
        | 'u' :: 'l' :: 'l' :: r => some (.null, r)
        | _ => none
      else if c = 't' then
        match rest with
        | 'r' :: 'u' :: 'e' :: r => some (.bool true, r)
        | _ => none
      else if c = 'f' then
        match rest with
        | 'a' :: 'l' :: 's' :: 'e' :: r => some (.bool false, r)
        | _ => none
      else if c = '"' then
        (parseStringBody rest).map (fun p => (.str (String.mk p.1), p.2))
      else if c = '[' then
        (match skipWs rest with
         | c2 :: r2 =>
           if c2 = ']' then some (.arr [], r2)
           else (parseElems fuel rest).map (fun p => (.arr p.1, p.2))
         | [] => (parseElems fuel rest).map (fun p => (.arr p.1, p.2)))
      else if c = '\x7b' then
        (match skipWs rest with
         | c2 :: r2 =>
           if c2 = '\x7d' then some (.obj [], r2)
           else (parseFields fuel rest).map (fun p => (.obj p.1, p.2))
         | [] => (parseFields fuel rest).map (fun p => (.obj p.1, p.2)))
      else if c = '-' then
        (match parseNumFrom rest with
         | some (.num n, r) => some (.num (-n), r)
         | _ => none)
      else parseNumFrom (c :: rest)

/-- Parse one-or-more array elements up to and including the closing
bracket. -/
def parseElems : Nat → List Char → Option (List Json × List Char)
  | 0, _ => none
  | fuel + 1, cs =>
    match parseVal fuel cs with
    | some (v, r1) =>
      (match skipWs r1 with
       | c :: r2 =>
         if c = ',' then (parseElems fuel r2).map (fun p => (v :: p.1, p.2))
         else if c = ']' then some ([v], r2)
         else none
       | [] => none)
    | none => none

/-- Parse one-or-more object fields up to and including the closing
brace. -/
def parseFields : Nat → List Char → Option (List (String × Json) × List Char)
  | 0, _ => none
  | fuel + 1, cs =>
    match skipWs cs with
    | c0 :: rest =>
      if c0 = '"' then
        (match parseStringBody rest with
         | some (kcs, r1) =>
           (match skipWs r1 with
            | c1 :: r2 =>
              if c1 = ':' then
                (match parseVal fuel r2 with
                 | some (v, r3) =>
                   (match skipWs r3 with
                    | c :: r4 =>
                      if c = ',' then
                        (parseFields fuel r4).map
                          (fun p => ((String.mk kcs, v) :: p.1, p.2))
                      else if c = '\x7d' then some ([(String.mk kcs, v)], r4)
                      else none
                    | [] => none)
                 | none => none)
              else none
            | [] => none)
         | none => none)
      else none
    | [] => none

end

/-- The serialised elements of a non-empty array, without the leading
comma (`serElems` with the first separator stripped). -/
def serElemsList : List Json → List Char
  | [] => []
  | v :: vs => serJson v ++ serElems vs

/-- The serialised fields of a non-empty object, without the leading
comma. -/
def serFieldsList : List (String × Json) → List Char
  | [] => []
  | (k, v) :: fs => escapeString k ++ ':' :: serJson v ++ serFields fs

/-- A continuation that does not begin with a digit — what follows a
serialised JSON value in any position (separator, bracket, or end of
input). -/
def headNotDigit : List Char → Prop
  | [] => True
  | c :: _ => c.isDigit = false

mutual

/-- Parser fuel sufficient for a value (bounds the recursion depth the
parser spends on its serialisation). -/
def jfuel : Json → Nat
  | .null => 1
  | .bool _ => 1
  | .num _ => 1
  | .str _ => 1
  | .arr l => 1 + lfuel l
  | .obj fs => 1 + ffuel fs

/-- Parser fuel sufficient for array elements. -/
def lfuel : List Json → Nat
  | [] => 1
  | v :: vs => 1 + max (jfuel v) (lfuel vs)

/-- Parser fuel sufficient for object fields. -/
def ffuel : List (String × Json) → Nat
  | [] => 1
  | (_, v) :: fs => 1 + max (jfuel v) (ffuel fs)

end

/-- `JSON.parse(s)` (none models a thrown `SyntaxError`). -/
def jsonParse (s : String) : Option Json :=
  match parseVal (s.data.length + 1) s.data with
  | some (v, rest) => if (skipWs rest).isEmpty then some v else none
  | none => none

/-- `decodeDetailField(detail)` from `src/utils/proxy-headers.ts`:
`JSON.parse(atob(detail))` inside `try`/`catch`, with `null` on any
failure.  A JavaScript `null` result and the null sentinel coincide, as they
do in the source. -/
def decodeDetailField (detail : String) : Json :=
  match atob detail with
  | some decoded =>
    match jsonParse decoded with
    | some v => v
    | none => Json.null
  | none => Json.null

mutual

/-- Do all strings in the value fit in Latin-1 (so that `btoa` accepts its
serialisation)? -/
def jsonLatin1 : Json → Bool
  | .null => true
  | .bool _ => true
  | .num _ => true
  | .str s => strLatin1 s
  | .arr l => jsonListLatin1 l
  | .obj fs => jsonFieldsLatin1 fs

/-- `jsonLatin1` over array elements. -/
def jsonListLatin1 : List Json → Bool
  | [] => true
  | v :: vs => jsonLatin1 v && jsonListLatin1 vs

/-- `jsonLatin1` over object fields. -/
def jsonFieldsLatin1 : List (String × Json) → Bool
  | [] => true
  | (k, v) :: fs => strLatin1 k && jsonLatin1 v && jsonFieldsLatin1 fs

end

/-! ## General lemmas -/

theorem jsTrim_empty : jsTrim "" = "" := rfl

theorem stripTrailingSlash_append_slash (B : String) :
    stripTrailingSlash (B ++ "/") = B := by
  have hdata : (B ++ "/").data = B.data ++ ['/'] := by
    rw [String.data_append]
  unfold stripTrailingSlash
  rw [hdata, List.getLast?_concat]
  change String.mk (B.data ++ ['/']).dropLast = B
  rw [List.dropLast_concat]

theorem stripTrailingSlash_of_no_slash (B : String) (h : endsWithSlash B = false) :
    stripTrailingSlash B = B := by
  unfold stripTrailingSlash
  unfold endsWithSlash at h
  cases hl : B.data.getLast? with
  | none => rfl
  | some c =>
    rw [hl] at h
    simp only [decide_eq_false_iff_not] at h
    split
    · next heq =>
      rw [heq] at h
      exact absurd rfl h
    · rfl

/-! ## C9 — client construction -/

/-- C9: constructing the client fails with a `ConfigurationError` exactly
when the API key is empty or whitespace-only (its `trim` is empty);
otherwise construction succeeds with defaults `https://api.lockllm.com`,
60000 ms and 3 retries for omitted fields, and `getConfig` returns the
stored configuration unchanged.  `mkLockLLM` is a pure function, so the
failure happens before any network activity can occur. -/
theorem lockllm_constructor_spec (config : LockLLMConfig) :
    (∀ e, mkLockLLM config = .error e →
      jsTrim config.apiKey = "" ∧
        e = mkConfigurationError
          "API key is required. Get your API key from https://www.lockllm.com/dashboard")
    ∧ (∀ r, mkLockLLM config = .ok r →
        jsTrim config.apiKey ≠ "" ∧
        r.apiKey = config.apiKey ∧
        r.baseURL = config.baseURL.getD "https://api.lockllm.com" ∧
        r.timeout = config.timeout.getD 60000 ∧
        r.maxRetries = config.maxRetries.getD 3 ∧
        getConfig r = r)
    ∧ (jsTrim config.apiKey = "" → ∃ e, mkLockLLM config = .error e) := by
  have hcond : (config.apiKey = "" ∨ jsTrim config.apiKey = "") ↔ jsTrim config.apiKey = "" := by
    constructor
    · rintro (h | h)
      · rw [h]; exact jsTrim_empty
      · exact h
    · exact Or.inr
  refine ⟨?_, ?_, ?_⟩
  · intro e he
    unfold mkLockLLM at he
    split at he
    · next h => exact ⟨hcond.mp h, by cases he; rfl⟩
    · cases he
  · intro r hr
    unfold mkLockLLM at hr
    split at hr
    · cases hr
    · next h =>
      cases hr
      exact ⟨fun hc => h (Or.inr hc), rfl, rfl, rfl, rfl, rfl⟩
  · intro h
    refine ⟨mkConfigurationError
      "API key is required. Get your API key from https://www.lockllm.com/dashboard", ?_⟩
    unfold mkLockLLM
    rw [if_pos (Or.inr h)]

/-- Witness for C9 at concrete inputs: a whitespace-only key is rejected,
and a valid key resolves the documented defaults. -/
theorem lockllm_constructor_spec_witness :
    (jsTrim " \t " = "" ∧ ∃ e, mkLockLLM { apiKey := " \t " } = .error e)
    ∧ (⟨"k7", "https://api.lockllm.com", 60000, 3⟩ : ResolvedConfig).baseURL
        = "https://api.lockllm.com" := by
  refine ⟨⟨by decide, (lockllm_constructor_spec { apiKey := " \t " }).2.2 (by decide)⟩, ?_⟩
  exact ((lockllm_constructor_spec { apiKey := "k7" }).2.1
    ⟨"k7", "https://api.lockllm.com", 60000, 3⟩ rfl).2.2.1

/-! ## C10 — base URL normalisation -/

/-- C10 counterexample: the constructor removes only one trailing slash, so
a double-slash base URL is stored still ending in a slash, and base URLs
`"a/"` and `"a/" ++ "/"` do not issue identical requests — refuting the
claim's "stored base URL never ends in a slash" and its unconditional
`X` / `X/` equivalence. -/
theorem baseURL_double_slash :
    endsWithSlash (mkHttpClient "https://api.lockllm.com//" "k").baseURL = true
    ∧ requestURL "a/" "/v1/scan" ≠ requestURL ("a/" ++ "/") "/v1/scan" := by
  constructor
  · decide
  · decide

/-- C10 (amended): exactly one trailing slash is removed; hence for a base
URL not already ending in a slash, configuring `B` and `B ++ "/"` issues
byte-identical request URLs for every path, and the stored base URL of such
a configuration never ends in a slash. -/
theorem baseURL_normalization :
    (∀ B : String, stripTrailingSlash (B ++ "/") = B)
    ∧ (∀ B : String, endsWithSlash B = false → stripTrailingSlash B = B)
    ∧ (∀ B p : String, endsWithSlash B = false →
        requestURL B p = requestURL (B ++ "/") p)
    ∧ (∀ B : String, endsWithSlash B = false →
        endsWithSlash (mkHttpClient (B ++ "/") "k").baseURL = false) := by
  refine ⟨stripTrailingSlash_append_slash, stripTrailingSlash_of_no_slash, ?_, ?_⟩
  · intro B p h
    unfold requestURL
    rw [stripTrailingSlash_append_slash, stripTrailingSlash_of_no_slash B h]
  · intro B h
    show endsWithSlash (stripTrailingSlash (B ++ "/")) = false
    rw [stripTrailingSlash_append_slash]
    exact h

/-- Witness for C10 at a concrete base URL without a trailing slash. -/
theorem baseURL_normalization_witness :
    endsWithSlash "https://api.lockllm.com" = false
    ∧ requestURL "https://api.lockllm.com" "/v1/scan"
        = requestURL ("https://api.lockllm.com" ++ "/") "/v1/scan" := by
  exact ⟨by decide, (baseURL_normalization.2.2.1) "https://api.lockllm.com" "/v1/scan" (by decide)⟩

/-! ## C3 — scan request builder -/

/-- C3: the checked-in `ScanClient.scan` sends a body of exactly
`{ input }`, but — against the claim and the repo's own tests
(`tests/pii-coverage.test.js`, `tests/compression-coverage.test.js`) — it
reads neither `piiAction` nor `compressionAction`/`compressionRate`, so the
corresponding headers are never emitted. -/
theorem scan_ignores_pii_and_compression :
    (scan { input := "My email is test@example.com" }
        (some { piiAction := some (some "block") })).headers = []
    ∧ (scan { input := "x" }
        (some { compressionAction := some (some "compact")
                compressionRate := some "0.5" })).headers = []
    ∧ (scan { input := "My email is test@example.com" }
        (some { piiAction := some (some "block") })).body
        = [("input", "My email is test@example.com")]
    ∧ (scan { input := "x", chunk := some false }
        (some { abuseAction := some (some "block") })).headers
        = [("x-lockllm-chunk", "false"), ("x-lockllm-abuse-action", "block")] := by
  exact ⟨rfl, rfl, rfl, rfl⟩

/-! ## C4 — proxy header builder -/

/-- C4: the checked-in `buildLockLLMHeaders` emits nothing for the
compression and PII options — against the claim's scenario C and the repo's
own tests — while the options it does handle behave as claimed; with no
options it returns an empty header set. -/
theorem buildHeaders_ignores_compression :
    buildLockLLMHeaders (some { compressionAction := some (some "compact")
                                compressionRate := some "0.4" }) = []
    ∧ buildLockLLMHeaders (some { piiAction := some (some "block") }) = []
    ∧ buildLockLLMHeaders none = []
    ∧ buildLockLLMHeaders (some { scanMode := some "combined"
                                  abuseAction := some none
                                  cacheResponse := some false
                                  cacheTTL := some 0 })
      = [("x-lockllm-scan-mode", "combined"), ("x-lockllm-cache-response", "false"),
         ("x-lockllm-cache-ttl", "0")] := by
  exact ⟨rfl, rfl, rfl, rfl⟩

/-! ## C5 — insufficient-credits code family -/

/-- C5: `parseError` maps only the literal code `insufficient_credits` to
the insufficient-credits variant; the envelope code `no_balance` — which the
claim and the repo's own tests (`tests/proxy-headers-full-coverage.test.js`)
require to map to that variant with 402 semantics — falls through to the
generic variant with no status and no balance fields. -/
theorem parseError_no_balance_generic :
    (let e := parseError (some { code := some "no_balance"
                                 etype := some "lockllm_balance_error"
                                 message := some "No balance found"
                                 request_id := some "req_no_bal"
                                 current_balance := some 0
                                 estimated_cost := some 1 }) (some "req_fallback")
     e.name = "LockLLMError" ∧ e.status = none ∧ e.current_balance = none)
    ∧ parseError (some { code := some "insufficient_credits"
                         message := some "m"
                         current_balance := some 5
                         estimated_cost := some 10 }) none
      = mkInsufficientCreditsError "m" none 5 10 := by
  exact ⟨⟨rfl, rfl, rfl⟩, rfl⟩

/-! ## C6 — PII rule in the error mapper -/

/-- C6: the checked-in `parseError` has no `pii_detected` rule at all — an
envelope with that code and a `pii_details` payload (which the claim and the
repo's tests require to become a PII variant with 403 semantics) falls
through every branch to the generic variant, with no status. -/
theorem parseError_pii_detected_generic :
    (let e := parseError (some { code := some "pii_detected"
                                 etype := some "lockllm_pii_error"
                                 message := some "PII detected in prompt"
                                 pii_details := some ⟨["email", "phone_number"], 3⟩ })
       (some "req_pii")
     e.name = "LockLLMError" ∧ e.status = none ∧ e.etype = "lockllm_pii_error") := by
  exact ⟨rfl, rfl, rfl⟩

/-! ## C7 — header-source counterexample -/

/-- C7 counterexample: the same single header, presented as a `Headers`
collection and as a plain record with a capitalised key, parses to
different metadata — the plain-record lookup only finds lowercase keys, so
`parseProxyMetadata` is not representation-independent as claimed. -/
theorem parseProxyMetadata_case_mismatch :
    parseProxyMetadata (.headersObj [("X-Request-Id", "req_1")])
      ≠ parseProxyMetadata (.plain [("X-Request-Id", "req_1")]) := by
  intro h
  have h1 : (parseProxyMetadata (.headersObj [("X-Request-Id", "req_1")])).request_id
      = (parseProxyMetadata (.plain [("X-Request-Id", "req_1")])).request_id :=
    congrArg ProxyMetadataM.request_id h
  revert h1
  decide

/-! ## C2 — Retry-After zero counterexample -/

/-- C2 counterexample: a present `Retry-After: 0` header parses to a wait of
0 ms, but `retryAfter || calculateBackoff(attempt)` treats 0 as falsy, so
the client sleeps the 1000 ms exponential backoff instead of the parsed
duration. -/
theorem retryAfter_zero_sleeps_backoff :
    parseRetryAfter (fun _ => none) 0 (some "0") = some 0
    ∧ (runRequest 1
        (fun n => if n = 0 then .resp { ok := false, status := 429, retryAfter := some "0" }
          else .resp { ok := true, status := 200, dataVal := 7 })
        (fun _ => none) 0 "rid").sleeps = [1000]
    ∧ (runRequest 1
        (fun n => if n = 0 then .resp { ok := false, status := 429, retryAfter := some "0" }
          else .resp { ok := true, status := 200, dataVal := 7 })
        (fun _ => none) 0 "rid").sleeps ≠ [0] := by
  refine ⟨rfl, rfl, ?_⟩
  decide

/-! ## Transport-loop lemmas

Lemmas about `runAux`, proved by induction on the remaining iteration
budget: attempt-count bounds, the sleeps trace, which outcomes can precede a
retry, immediate propagation of non-rate-limit typed errors, the final
`NetworkError` wrapping, and the exhausted-429 shape. -/

section TransportLemmas

variable (mr : Nat) (oracle : Nat → AttemptOutcome) (dp : String → Option Int)
  (now : Int) (rid : String)

theorem finalize_attempts (le : Option Thrown) (n : Nat) (sl : List Int) :
    (finalize rid le n sl).attempts = n := by
  cases le with
  | none => rfl
  | some t => cases t <;> rfl

theorem finalize_sleeps (le : Option Thrown) (n : Nat) (sl : List Int) :
    (finalize rid le n sl).sleeps = sl := by
  cases le with
  | none => rfl
  | some t => cases t <;> rfl

theorem runAux_attempts_le :
    ∀ (k n : Nat) (le : Option Thrown) (sl : List Int),
      (runAux mr oracle dp now rid k n le sl).attempts ≤ n + k := by
  intro k
  induction k with
  | zero =>
    intro n le sl
    simp [runAux, finalize_attempts]
  | succ k ih =>
    intro n le sl
    rw [runAux]
    cases h : tryBody mr oracle dp now rid n with
    | ret dv rid2 => simp
    | continue429 d =>
      simp only []
      have := ih (n + 1) le (sl ++ [d])
      omega
    | caught t =>
      cases t with
      | lock e =>
        simp only []
        split
        · simp
        · split
          · have := ih (n + 1) (some (.lock e)) (sl ++ [calculateBackoff n])
            omega
          · rw [finalize_attempts]; omega
      | plain p =>
        simp only []
        split
        · have := ih (n + 1) (some (.plain p)) (sl ++ [calculateBackoff n])
          omega
        · rw [finalize_attempts]; omega

theorem runAux_attempts_lower :
    ∀ (k n : Nat) (le : Option Thrown) (sl : List Int), 1 ≤ k →
      n + 1 ≤ (runAux mr oracle dp now rid k n le sl).attempts := by
  intro k
  induction k with
  | zero => intro n le sl hk; omega
  | succ k ih =>
    intro n le sl _
    rw [runAux]
    cases h : tryBody mr oracle dp now rid n with
    | ret dv rid2 => simp
    | continue429 d =>
      simp only []
      rcases Nat.eq_zero_or_pos k with hk | hk
      · subst hk
        simp [runAux, finalize_attempts]
      · have := ih (n + 1) le (sl ++ [d]) hk
        omega
    | caught t =>
      cases t with
      | lock e =>
        simp only []
        split
        · simp
        · split
          · rcases Nat.eq_zero_or_pos k with hk | hk
            · subst hk
              simp [runAux, finalize_attempts]
            · have := ih (n + 1) (some (.lock e)) (sl ++ [calculateBackoff n]) hk
              omega
          · rw [finalize_attempts]
      | plain p =>
        simp only []
        split
        · rcases Nat.eq_zero_or_pos k with hk | hk
          · subst hk
            simp [runAux, finalize_attempts]
          · have := ih (n + 1) (some (.plain p)) (sl ++ [calculateBackoff n]) hk
            omega
        · rw [finalize_attempts]

theorem runAux_sleeps_prefix :
    ∀ (k n : Nat) (le : Option Thrown) (sl : List Int),
      ∃ t, (runAux mr oracle dp now rid k n le sl).sleeps = sl ++ t := by
  intro k
  induction k with
  | zero =>
    intro n le sl
    exact ⟨[], by simp [runAux, finalize_sleeps]⟩
  | succ k ih =>
    intro n le sl
    rw [runAux]
    cases h : tryBody mr oracle dp now rid n with
    | ret dv rid2 => exact ⟨[], by simp⟩
    | continue429 d =>
      simp only []
      obtain ⟨t, ht⟩ := ih (n + 1) le (sl ++ [d])
      exact ⟨d :: t, by rw [ht]; simp⟩
    | caught t =>
      cases t with
      | lock e =>
        simp only []
        split
        · exact ⟨[], by simp⟩
        · split
          · obtain ⟨t, ht⟩ := ih (n + 1) (some (.lock e)) (sl ++ [calculateBackoff n])
            exact ⟨calculateBackoff n :: t, by rw [ht]; simp⟩
          · exact ⟨[], by rw [finalize_sleeps]; simp⟩
      | plain p =>
        simp only []
        split
        · obtain ⟨t, ht⟩ := ih (n + 1) (some (.plain p)) (sl ++ [calculateBackoff n])
          exact ⟨calculateBackoff n :: t, by rw [ht]; simp⟩
        · exact ⟨[], by rw [finalize_sleeps]; simp⟩

theorem runAux_retried_only :
    ∀ (k n : Nat) (le : Option Thrown) (sl : List Int) (i : Nat), n ≤ i →
      i + 1 < (runAux mr oracle dp now rid k n le sl).attempts →
      retriableOutcome rid (oracle i) ∧ i < mr := by
  intro k
  induction k with
  | zero =>
    intro n le sl i hni hlt
    rw [runAux, finalize_attempts] at hlt
    omega
  | succ k ih =>
    intro n le sl i hni hlt
    rw [runAux] at hlt
    cases ho : oracle n with
    | throws pe =>
      have htb : tryBody mr oracle dp now rid n = .caught (.plain pe) := by
        simp [tryBody, ho]
      rw [htb] at hlt
      simp only [] at hlt
      by_cases hc : (decide (n < mr) && isRetryableError (.plain pe)) = true
      · rw [if_pos hc] at hlt
        simp only [Bool.and_eq_true, decide_eq_true_eq] at hc
        rcases Nat.eq_or_lt_of_le hni with rfl | hgt
        · exact ⟨Or.inr (Or.inl ⟨pe, ho, hc.2⟩), hc.1⟩
        · exact ih (n + 1) (some (.plain pe)) (sl ++ [calculateBackoff n]) i hgt hlt
      · rw [if_neg hc, finalize_attempts] at hlt
        omega
    | resp r =>
      by_cases hok : r.ok = true
      · cases hb : r.body with
        | some ob =>
          have htb : tryBody mr oracle dp now rid n
              = .ret r.dataVal (jsStrOrD r.xRequestId rid) := by
            simp [tryBody, ho, hok, hb]
          rw [htb] at hlt
          simp only [] at hlt
          omega
        | none =>
          have htb : tryBody mr oracle dp now rid n = .caught (.plain jsonDecodeFailure) := by
            simp [tryBody, ho, hok, hb]
          rw [htb] at hlt
          simp only [] at hlt
          have hnr : (decide (n < mr) && isRetryableError (.plain jsonDecodeFailure)) = false := by
            simp [isRetryableError, jsonDecodeFailure, jsIncludes, containsL, startsWithL]
          rw [hnr] at hlt
          simp only [if_false, Bool.false_eq_true, finalize_attempts] at hlt
          omega
      · rw [Bool.not_eq_true] at hok
        by_cases h429 : r.status = 429
        · by_cases hnm : n < mr
          · have htb : tryBody mr oracle dp now rid n
                = .continue429 (jsNumOr (parseRetryAfter dp now r.retryAfter)
                    (calculateBackoff n)) := by
              simp [tryBody, ho, hok, h429, hnm]
            rw [htb] at hlt
            simp only [] at hlt
            rcases Nat.eq_or_lt_of_le hni with rfl | hgt
            · exact ⟨Or.inl ⟨r, ho, hok, h429⟩, hnm⟩
            · exact ih (n + 1) le
                (sl ++ [jsNumOr (parseRetryAfter dp now r.retryAfter) (calculateBackoff n)])
                i hgt hlt
          · have htb : tryBody mr oracle dp now rid n
                = .caught (.lock (mkRateLimitError
                    (jsStrOrD ((r.body.getD none).bind (·.message)) "Rate limit exceeded")
                    (parseRetryAfter dp now r.retryAfter)
                    (some (jsStrOrD r.xRequestId rid)))) := by
              simp [tryBody, ho, hok, h429, hnm]
            rw [htb] at hlt
            simp only [mkRateLimitError, ne_eq, not_true_eq_false, if_false] at hlt
            have hnm' : decide (n < mr) = false := by simp [hnm]
            rw [hnm'] at hlt
            simp only [Bool.false_and, Bool.false_eq_true, if_false, finalize_attempts] at hlt
            omega
        · have htb : tryBody mr oracle dp now rid n
              = .caught (.lock (parseError (r.body.getD none)
                  (some (jsStrOrD r.xRequestId rid)))) := by
            simp [tryBody, ho, hok, h429]
          rw [htb] at hlt
          simp only [] at hlt
          by_cases hname : (parseError (r.body.getD none)
              (some (jsStrOrD r.xRequestId rid))).name = "RateLimitError"
          · rw [if_neg (by simpa using hname)] at hlt
            by_cases hnm : n < mr
            · have hcond : (decide (n < mr) && isRetryableError
                  (.lock (parseError (r.body.getD none)
                    (some (jsStrOrD r.xRequestId rid))))) = true := by
                simp [isRetryableError, hname, hnm]
              rw [hcond, if_pos rfl] at hlt
              rcases Nat.eq_or_lt_of_le hni with rfl | hgt
              · exact ⟨Or.inr (Or.inr ⟨r, ho, hok, h429, hname⟩), hnm⟩
              · exact ih (n + 1) _ _ i hgt hlt
            · have hcond : (decide (n < mr) && isRetryableError
                  (.lock (parseError (r.body.getD none)
                    (some (jsStrOrD r.xRequestId rid))))) = false := by
                simp [hnm]
              rw [hcond] at hlt
              simp only [Bool.false_eq_true, if_false, finalize_attempts] at hlt
              omega
          · rw [if_pos (by simpa using hname)] at hlt
            simp only [] at hlt
            omega

theorem runAux_immediate_error :
    ∀ (k n : Nat) (le : Option Thrown) (sl : List Int) (i : Nat) (r : MockResponse),
      n ≤ i → i < (runAux mr oracle dp now rid k n le sl).attempts →
      oracle i = .resp r → r.ok = false → r.status ≠ 429 →
      (parseError (r.body.getD none) (some (jsStrOrD r.xRequestId rid))).name
        ≠ "RateLimitError" →
      (runAux mr oracle dp now rid k n le sl).attempts = i + 1 ∧
      (runAux mr oracle dp now rid k n le sl).result
        = .error (parseError (r.body.getD none) (some (jsStrOrD r.xRequestId rid))) := by
  intro k
  induction k with
  | zero =>
    intro n le sl i r hni hlt
    rw [runAux, finalize_attempts] at hlt
    omega
  | succ k ih =>
    intro n le sl i r hni hlt hor hok h429 hname
    rcases Nat.eq_or_lt_of_le hni with rfl | hgt
    · have htb : tryBody mr oracle dp now rid n
          = .caught (.lock (parseError (r.body.getD none)
              (some (jsStrOrD r.xRequestId rid)))) := by
        simp [tryBody, hor, hok, h429]
      rw [runAux, htb]
      simp only []
      rw [if_pos (by simpa using hname)]
      exact ⟨rfl, rfl⟩
    · rw [runAux] at hlt ⊢
      cases ho : oracle n with
      | throws pe =>
        have htb : tryBody mr oracle dp now rid n = .caught (.plain pe) := by
          simp [tryBody, ho]
        rw [htb] at hlt ⊢
        simp only [] at hlt ⊢
        by_cases hc : (decide (n < mr) && isRetryableError (.plain pe)) = true
        · rw [if_pos hc] at hlt ⊢
          exact ih (n + 1) _ _ i r hgt hlt hor hok h429 hname
        · rw [if_neg hc, finalize_attempts] at hlt
          omega
      | resp r0 =>
        by_cases hok0 : r0.ok = true
        · cases hb : r0.body with
          | some ob =>
            have htb : tryBody mr oracle dp now rid n
                = .ret r0.dataVal (jsStrOrD r0.xRequestId rid) := by
              simp [tryBody, ho, hok0, hb]
            rw [htb] at hlt
            simp only [] at hlt
            omega
          | none =>
            have htb : tryBody mr oracle dp now rid n
                = .caught (.plain jsonDecodeFailure) := by
              simp [tryBody, ho, hok0, hb]
            rw [htb] at hlt
            simp only [] at hlt
            have hnr : (decide (n < mr) && isRetryableError (.plain jsonDecodeFailure))
                = false := by
              simp [isRetryableError, jsonDecodeFailure, jsIncludes, containsL, startsWithL]
            rw [hnr] at hlt
            simp only [Bool.false_eq_true, if_false, finalize_attempts] at hlt
            omega
        · rw [Bool.not_eq_true] at hok0
          by_cases h4290 : r0.status = 429
          · by_cases hnm : n < mr
            · have htb : tryBody mr oracle dp now rid n
                  = .continue429 (jsNumOr (parseRetryAfter dp now r0.retryAfter)
                      (calculateBackoff n)) := by
                simp [tryBody, ho, hok0, h4290, hnm]
              rw [htb] at hlt ⊢
              simp only [] at hlt ⊢
              exact ih (n + 1) _ _ i r hgt hlt hor hok h429 hname
            · have htb : tryBody mr oracle dp now rid n
                  = .caught (.lock (mkRateLimitError
                      (jsStrOrD ((r0.body.getD none).bind (·.message)) "Rate limit exceeded")
                      (parseRetryAfter dp now r0.retryAfter)
                      (some (jsStrOrD r0.xRequestId rid)))) := by
                simp [tryBody, ho, hok0, h4290, hnm]
              rw [htb] at hlt
              simp only [mkRateLimitError, ne_eq, not_true_eq_false, if_false] at hlt
              have hnm' : decide (n < mr) = false := by simp [hnm]
              rw [hnm'] at hlt
              simp only [Bool.false_and, Bool.false_eq_true, if_false,
                finalize_attempts] at hlt
              omega
          · have htb : tryBody mr oracle dp now rid n
                = .caught (.lock (parseError (r0.body.getD none)
                    (some (jsStrOrD r0.xRequestId rid)))) := by
              simp [tryBody, ho, hok0, h4290]
            rw [htb] at hlt ⊢
            simp only [] at hlt ⊢
            by_cases hname0 : (parseError (r0.body.getD none)
                (some (jsStrOrD r0.xRequestId rid))).name = "RateLimitError"
            · rw [if_neg (by simpa using hname0)] at hlt ⊢
              by_cases hnm : n < mr
              · have hcond : (decide (n < mr) && isRetryableError
                    (.lock (parseError (r0.body.getD none)
                      (some (jsStrOrD r0.xRequestId rid))))) = true := by
                  simp [isRetryableError, hname0, hnm]
                rw [hcond, if_pos rfl] at hlt ⊢
                exact ih (n + 1) _ _ i r hgt hlt hor hok h429 hname
              · have hcond : (decide (n < mr) && isRetryableError
                    (.lock (parseError (r0.body.getD none)
                      (some (jsStrOrD r0.xRequestId rid))))) = false := by
                  simp [hnm]
                rw [hcond] at hlt
                simp only [Bool.false_eq_true, if_false, finalize_attempts] at hlt
                omega
            · rw [if_pos (by simpa using hname0)] at hlt
              simp only [] at hlt
              omega

theorem runAux_transport_wrap :
    ∀ (k n : Nat) (le : Option Thrown) (sl : List Int), 1 ≤ k → ∀ pe : PlainErr,
      oracle ((runAux mr oracle dp now rid k n le sl).attempts - 1) = .throws pe →
      (runAux mr oracle dp now rid k n le sl).result
        = .error (mkNetworkError (jsStrOrD (some pe.message) "Network request failed")
            (some pe) (some rid)) := by
  intro k
  induction k with
  | zero => intro n le sl hk; omega
  | succ k ih =>
    intro n le sl _ pe hpe
    rw [runAux] at hpe ⊢
    cases ho : oracle n with
    | throws pe0 =>
      have htb : tryBody mr oracle dp now rid n = .caught (.plain pe0) := by
        simp [tryBody, ho]
      rw [htb] at hpe ⊢
      simp only [] at hpe ⊢
      by_cases hc : (decide (n < mr) && isRetryableError (.plain pe0)) = true
      · rw [if_pos hc] at hpe ⊢
        rcases Nat.eq_zero_or_pos k with rfl | hk
        · rw [runAux, finalize_attempts] at hpe
          rw [runAux]
          simp only [Nat.add_sub_cancel, ho] at hpe
          cases hpe
          rfl
        · exact ih (n + 1) _ _ hk pe hpe
      · rw [if_neg hc, finalize_attempts] at hpe
        rw [if_neg hc]
        simp only [Nat.add_sub_cancel, ho] at hpe
        cases hpe
        rfl
    | resp r0 =>
      by_cases hok0 : r0.ok = true
      · cases hb : r0.body with
        | some ob =>
          have htb : tryBody mr oracle dp now rid n
              = .ret r0.dataVal (jsStrOrD r0.xRequestId rid) := by
            simp [tryBody, ho, hok0, hb]
          rw [htb] at hpe
          simp only [Nat.add_sub_cancel, ho] at hpe
          cases hpe
        | none =>
          have htb : tryBody mr oracle dp now rid n
              = .caught (.plain jsonDecodeFailure) := by
            simp [tryBody, ho, hok0, hb]
          rw [htb] at hpe ⊢
          simp only [] at hpe ⊢
          have hnr : (decide (n < mr) && isRetryableError (.plain jsonDecodeFailure))
              = false := by
            simp [isRetryableError, jsonDecodeFailure, jsIncludes, containsL, startsWithL]
          rw [hnr] at hpe ⊢
          simp only [Bool.false_eq_true, if_false, finalize_attempts,
            Nat.add_sub_cancel, ho] at hpe
          cases hpe
      · rw [Bool.not_eq_true] at hok0
        by_cases h4290 : r0.status = 429
        · by_cases hnm : n < mr
          · have htb : tryBody mr oracle dp now rid n
                = .continue429 (jsNumOr (parseRetryAfter dp now r0.retryAfter)
                    (calculateBackoff n)) := by
              simp [tryBody, ho, hok0, h4290, hnm]
            rw [htb] at hpe ⊢
            simp only [] at hpe ⊢
            rcases Nat.eq_zero_or_pos k with rfl | hk
            · rw [runAux, finalize_attempts] at hpe
              simp only [Nat.add_sub_cancel, ho] at hpe
              cases hpe
            · exact ih (n + 1) _ _ hk pe hpe
          · have htb : tryBody mr oracle dp now rid n
                = .caught (.lock (mkRateLimitError
                    (jsStrOrD ((r0.body.getD none).bind (·.message)) "Rate limit exceeded")
                    (parseRetryAfter dp now r0.retryAfter)
                    (some (jsStrOrD r0.xRequestId rid)))) := by
              simp [tryBody, ho, hok0, h4290, hnm]
            rw [htb] at hpe ⊢
            simp only [mkRateLimitError, ne_eq, not_true_eq_false, if_false] at hpe ⊢
            have hnm' : decide (n < mr) = false := by simp [hnm]
            rw [hnm'] at hpe ⊢
            simp only [Bool.false_and, Bool.false_eq_true, if_false, finalize_attempts,
              Nat.add_sub_cancel, ho] at hpe
            cases hpe
        · have htb : tryBody mr oracle dp now rid n
              = .caught (.lock (parseError (r0.body.getD none)
                  (some (jsStrOrD r0.xRequestId rid)))) := by
            simp [tryBody, ho, hok0, h4290]
          rw [htb] at hpe ⊢
          simp only [] at hpe ⊢
          by_cases hname0 : (parseError (r0.body.getD none)
              (some (jsStrOrD r0.xRequestId rid))).name = "RateLimitError"
          · rw [if_neg (by simpa using hname0)] at hpe ⊢
            by_cases hnm : n < mr
            · have hcond : (decide (n < mr) && isRetryableError
                  (.lock (parseError (r0.body.getD none)
                    (some (jsStrOrD r0.xRequestId rid))))) = true := by
                simp [isRetryableError, hname0, hnm]
              rw [hcond, if_pos rfl] at hpe ⊢
              rcases Nat.eq_zero_or_pos k with rfl | hk
              · rw [runAux, finalize_attempts] at hpe
                simp only [Nat.add_sub_cancel, ho] at hpe
                cases hpe
              · exact ih (n + 1) _ _ hk pe hpe
            · have hcond : (decide (n < mr) && isRetryableError
                  (.lock (parseError (r0.body.getD none)
                    (some (jsStrOrD r0.xRequestId rid))))) = false := by
                simp [hnm]
              rw [hcond] at hpe ⊢
              simp only [Bool.false_eq_true, if_false, finalize_attempts,
                Nat.add_sub_cancel, ho] at hpe
              cases hpe
          · rw [if_pos (by simpa using hname0)] at hpe
            simp only [Nat.add_sub_cancel, ho] at hpe
            cases hpe

theorem runAux_exhausted_429 :
    ∀ (k n : Nat) (le : Option Thrown) (sl : List Int), 1 ≤ k → mr + 1 = n + k →
      ∀ r : MockResponse,
      oracle ((runAux mr oracle dp now rid k n le sl).attempts - 1) = .resp r →
      r.ok = false → r.status = 429 →
      ∃ e, (runAux mr oracle dp now rid k n le sl).result = .error e ∧
        e.name = "RateLimitError" ∧ e.status = some 429 ∧
        e.retryAfter = parseRetryAfter dp now r.retryAfter := by
  intro k
  induction k with
  | zero => intro n le sl hk; omega
  | succ k ih =>
    intro n le sl _ hinv r hr hok h429
    rw [runAux] at hr ⊢
    cases ho : oracle n with
    | throws pe0 =>
      have htb : tryBody mr oracle dp now rid n = .caught (.plain pe0) := by
        simp [tryBody, ho]
      rw [htb] at hr ⊢
      simp only [] at hr ⊢
      by_cases hc : (decide (n < mr) && isRetryableError (.plain pe0)) = true
      · rw [if_pos hc] at hr ⊢
        have hnm : n < mr := by
          have := hc
          simp only [Bool.and_eq_true, decide_eq_true_eq] at this
          exact this.1
        have hk : 1 ≤ k := by omega
        exact ih (n + 1) _ _ hk (by omega) r hr hok h429
      · rw [if_neg hc, finalize_attempts] at hr
        rw [if_neg hc]
        simp only [Nat.add_sub_cancel, ho] at hr
        cases hr
    | resp r0 =>
      by_cases hok0 : r0.ok = true
      · cases hb : r0.body with
        | some ob =>
          have htb : tryBody mr oracle dp now rid n
              = .ret r0.dataVal (jsStrOrD r0.xRequestId rid) := by
            simp [tryBody, ho, hok0, hb]
          rw [htb] at hr
          simp only [Nat.add_sub_cancel, ho] at hr
          cases hr
          rw [hok0] at hok
          cases hok
        | none =>
          have htb : tryBody mr oracle dp now rid n
              = .caught (.plain jsonDecodeFailure) := by
            simp [tryBody, ho, hok0, hb]
          rw [htb] at hr
          simp only [] at hr
          have hnr : (decide (n < mr) && isRetryableError (.plain jsonDecodeFailure))
              = false := by
            simp [isRetryableError, jsonDecodeFailure, jsIncludes, containsL, startsWithL]
          rw [hnr] at hr
          simp only [Bool.false_eq_true, if_false, finalize_attempts,
            Nat.add_sub_cancel, ho] at hr
          cases hr
          rw [hok0] at hok
          cases hok
      · rw [Bool.not_eq_true] at hok0
        by_cases h4290 : r0.status = 429
        · by_cases hnm : n < mr
          · have htb : tryBody mr oracle dp now rid n
                = .continue429 (jsNumOr (parseRetryAfter dp now r0.retryAfter)
                    (calculateBackoff n)) := by
              simp [tryBody, ho, hok0, h4290, hnm]
            rw [htb] at hr ⊢
            simp only [] at hr ⊢
            have hk : 1 ≤ k := by omega
            exact ih (n + 1) _ _ hk (by omega) r hr hok h429
          · have htb : tryBody mr oracle dp now rid n
                = .caught (.lock (mkRateLimitError
                    (jsStrOrD ((r0.body.getD none).bind (·.message)) "Rate limit exceeded")
                    (parseRetryAfter dp now r0.retryAfter)
                    (some (jsStrOrD r0.xRequestId rid)))) := by
              simp [tryBody, ho, hok0, h4290, hnm]
            rw [htb] at hr ⊢
            simp only [mkRateLimitError, ne_eq, not_true_eq_false, if_false] at hr ⊢
            have hnm' : decide (n < mr) = false := by simp [hnm]
            rw [hnm'] at hr ⊢
            simp only [Bool.false_and, Bool.false_eq_true, if_false, finalize_attempts,
              Nat.add_sub_cancel, ho] at hr
            cases hr
            exact ⟨_, rfl, rfl, rfl, rfl⟩
        · have htb : tryBody mr oracle dp now rid n
              = .caught (.lock (parseError (r0.body.getD none)
                  (some (jsStrOrD r0.xRequestId rid)))) := by
            simp [tryBody, ho, hok0, h4290]
          rw [htb] at hr ⊢
          simp only [] at hr ⊢
          by_cases hname0 : (parseError (r0.body.getD none)
              (some (jsStrOrD r0.xRequestId rid))).name = "RateLimitError"
          · rw [if_neg (by simpa using hname0)] at hr ⊢
            by_cases hnm : n < mr
            · have hcond : (decide (n < mr) && isRetryableError
                  (.lock (parseError (r0.body.getD none)
                    (some (jsStrOrD r0.xRequestId rid))))) = true := by
                simp [isRetryableError, hname0, hnm]
              rw [hcond, if_pos rfl] at hr ⊢
              have hk : 1 ≤ k := by omega
              exact ih (n + 1) _ _ hk (by omega) r hr hok h429
            · have hcond : (decide (n < mr) && isRetryableError
                  (.lock (parseError (r0.body.getD none)
                    (some (jsStrOrD r0.xRequestId rid))))) = false := by
                simp [hnm]
              rw [hcond] at hr ⊢
              simp only [Bool.false_eq_true, if_false, finalize_attempts,
                Nat.add_sub_cancel, ho] at hr
              cases hr
              exact absurd h429 h4290
          · rw [if_pos (by simpa using hname0)] at hr ⊢
            simp only [Nat.add_sub_cancel, ho] at hr
            cases hr
            exact absurd h429 h4290

theorem runAux_sleep_at :
    ∀ (k n : Nat) (le : Option Thrown) (sl : List Int) (i : Nat) (r : MockResponse),
      n ≤ i → i + 1 < (runAux mr oracle dp now rid k n le sl).attempts →
      oracle i = .resp r → r.ok = false → r.status = 429 →
      ((runAux mr oracle dp now rid k n le sl).sleeps)[sl.length + (i - n)]?
        = some (jsNumOr (parseRetryAfter dp now r.retryAfter) (calculateBackoff i)) := by
  intro k
  induction k with
  | zero =>
    intro n le sl i r hni hlt
    rw [runAux, finalize_attempts] at hlt
    omega
  | succ k ih =>
    intro n le sl i r hni hlt hor hok h429
    rw [runAux] at hlt ⊢
    cases ho : oracle n with
    | throws pe =>
      have htb : tryBody mr oracle dp now rid n = .caught (.plain pe) := by
        simp [tryBody, ho]
      rw [htb] at hlt ⊢
      simp only [] at hlt ⊢
      by_cases hc : (decide (n < mr) && isRetryableError (.plain pe)) = true
      · rw [if_pos hc] at hlt ⊢
        rcases Nat.eq_or_lt_of_le hni with rfl | hgt
        · rw [ho] at hor; cases hor
        · have heq : sl.length + (i - n)
              = (sl ++ [calculateBackoff n]).length + (i - (n + 1)) := by
            simp; omega
          rw [heq]
          exact ih (n + 1) _ _ i r hgt hlt hor hok h429
      · rw [if_neg hc, finalize_attempts] at hlt
        omega
    | resp r0 =>
      by_cases hok0 : r0.ok = true
      · cases hb : r0.body with
        | some ob =>
          have htb : tryBody mr oracle dp now rid n
              = .ret r0.dataVal (jsStrOrD r0.xRequestId rid) := by
            simp [tryBody, ho, hok0, hb]
          rw [htb] at hlt
          simp only [] at hlt
          omega
        | none =>
          have htb : tryBody mr oracle dp now rid n
              = .caught (.plain jsonDecodeFailure) := by
            simp [tryBody, ho, hok0, hb]
          rw [htb] at hlt
          simp only [] at hlt
          have hnr : (decide (n < mr) && isRetryableError (.plain jsonDecodeFailure))
              = false := by
            simp [isRetryableError, jsonDecodeFailure, jsIncludes, containsL, startsWithL]
          rw [hnr] at hlt
          simp only [Bool.false_eq_true, if_false, finalize_attempts] at hlt
          omega
      · rw [Bool.not_eq_true] at hok0
        by_cases h4290 : r0.status = 429
        · by_cases hnm : n < mr
          · have htb : tryBody mr oracle dp now rid n
                = .continue429 (jsNumOr (parseRetryAfter dp now r0.retryAfter)
                    (calculateBackoff n)) := by
              simp [tryBody, ho, hok0, h4290, hnm]
            rw [htb] at hlt ⊢
            simp only [] at hlt ⊢
            rcases Nat.eq_or_lt_of_le hni with rfl | hgt
            · rw [ho] at hor
              cases hor
              obtain ⟨t, ht⟩ := runAux_sleeps_prefix mr oracle dp now rid k (n + 1) le
                (sl ++ [jsNumOr (parseRetryAfter dp now r.retryAfter) (calculateBackoff n)])
              rw [ht, List.append_assoc]
              rw [List.getElem?_append_right (by omega)]
              simp
            · have heq : sl.length + (i - n)
                  = (sl ++ [jsNumOr (parseRetryAfter dp now r0.retryAfter)
                      (calculateBackoff n)]).length + (i - (n + 1)) := by
                simp; omega
              rw [heq]
              exact ih (n + 1) _ _ i r hgt hlt hor hok h429
          · have htb : tryBody mr oracle dp now rid n
                = .caught (.lock (mkRateLimitError
                    (jsStrOrD ((r0.body.getD none).bind (·.message)) "Rate limit exceeded")
                    (parseRetryAfter dp now r0.retryAfter)
                    (some (jsStrOrD r0.xRequestId rid)))) := by
              simp [tryBody, ho, hok0, h4290, hnm]
            rw [htb] at hlt
            simp only [mkRateLimitError, ne_eq, not_true_eq_false, if_false] at hlt
            have hnm' : decide (n < mr) = false := by simp [hnm]
            rw [hnm'] at hlt
            simp only [Bool.false_and, Bool.false_eq_true, if_false,
              finalize_attempts] at hlt
            omega
        · have htb : tryBody mr oracle dp now rid n
              = .caught (.lock (parseError (r0.body.getD none)
                  (some (jsStrOrD r0.xRequestId rid)))) := by
            simp [tryBody, ho, hok0, h4290]
          rw [htb] at hlt ⊢
          simp only [] at hlt ⊢
          by_cases hname0 : (parseError (r0.body.getD none)
              (some (jsStrOrD r0.xRequestId rid))).name = "RateLimitError"
          · rw [if_neg (by simpa using hname0)] at hlt ⊢
            by_cases hnm : n < mr
            · have hcond : (decide (n < mr) && isRetryableError
                  (.lock (parseError (r0.body.getD none)
                    (some (jsStrOrD r0.xRequestId rid))))) = true := by
                simp [isRetryableError, hname0, hnm]
              rw [hcond, if_pos rfl] at hlt ⊢
              rcases Nat.eq_or_lt_of_le hni with rfl | hgt
              · rw [ho] at hor
                cases hor
                exact absurd h429 h4290
              · have heq : sl.length + (i - n)
                    = (sl ++ [calculateBackoff n]).length + (i - (n + 1)) := by
                  simp; omega
                rw [heq]
                exact ih (n + 1) _ _ i r hgt hlt hor hok h429
            · have hcond : (decide (n < mr) && isRetryableError
                  (.lock (parseError (r0.body.getD none)
                    (some (jsStrOrD r0.xRequestId rid))))) = false := by
                simp [hnm]
              rw [hcond] at hlt
              simp only [Bool.false_eq_true, if_false, finalize_attempts] at hlt
              omega
          · rw [if_pos (by simpa using hname0)] at hlt
            simp only [] at hlt
            omega

theorem runAux_sleeps_length :
    ∀ (k n : Nat) (le : Option Thrown) (sl : List Int), mr + 1 ≤ n + k →
      (runAux mr oracle dp now rid k n le sl).sleeps.length
        = sl.length + ((runAux mr oracle dp now rid k n le sl).attempts - (n + 1)) := by
  intro k
  induction k with
  | zero =>
    intro n le sl hbud
    rw [runAux, finalize_attempts, finalize_sleeps]
    omega
  | succ k ih =>
    intro n le sl hbud
    rw [runAux]
    cases h : tryBody mr oracle dp now rid n with
    | ret dv rid2 => simp
    | continue429 d =>
      simp only []
      have hd : tryBody mr oracle dp now rid n = .continue429 d := h
      have hnm : n < mr := by
        by_contra hnm
        unfold tryBody at hd
        cases ho : oracle n with
        | throws pe => rw [ho] at hd; cases hd
        | resp r0 =>
          rw [ho] at hd
          simp only [] at hd
          by_cases hok0 : r0.ok = true
          · rw [if_pos hok0] at hd
            cases hb : r0.body with
            | some ob => rw [hb] at hd; cases hd
            | none => rw [hb] at hd; cases hd
          · rw [if_neg hok0] at hd
            by_cases h4290 : r0.status = 429
            · rw [if_pos h4290] at hd
              rw [if_neg hnm] at hd
              cases hd
            · rw [if_neg h4290] at hd
              cases hd
      have hk : 1 ≤ k := by omega
      have hlow := runAux_attempts_lower mr oracle dp now rid k (n + 1) le (sl ++ [d]) hk
      have hih := ih (n + 1) le (sl ++ [d]) (by omega)
      simp at hih ⊢
      omega
    | caught t =>
      cases t with
      | lock e =>
        simp only []
        split
        · simp
        · split
          · next hcond =>
            have hnm : n < mr := by
              rcases Bool.and_eq_true _ _ |>.mp hcond with ⟨h1, _⟩
              exact decide_eq_true_eq.mp h1
            have hk : 1 ≤ k := by omega
            have hlow := runAux_attempts_lower mr oracle dp now rid k (n + 1)
              (some (.lock e)) (sl ++ [calculateBackoff n]) hk
            have hih := ih (n + 1) (some (.lock e)) (sl ++ [calculateBackoff n]) (by omega)
            simp at hih ⊢
            omega
          · rw [finalize_attempts, finalize_sleeps]
            omega
      | plain p =>
        simp only []
        split
        · next hcond =>
          have hnm : n < mr := by
            rcases Bool.and_eq_true _ _ |>.mp hcond with ⟨h1, _⟩
            exact decide_eq_true_eq.mp h1
          have hk : 1 ≤ k := by omega
          have hlow := runAux_attempts_lower mr oracle dp now rid k (n + 1)
            (some (.plain p)) (sl ++ [calculateBackoff n]) hk
          have hih := ih (n + 1) (some (.plain p)) (sl ++ [calculateBackoff n]) (by omega)
          simp at hih ⊢
          omega
        · rw [finalize_attempts, finalize_sleeps]
          omega

end TransportLemmas

/-! ## C1 — retry-on-non-429 counterexample -/

/-- C1 counterexample: a non-429 HTTP response (status 500) whose error body
decodes to a rate-limit code makes `parseError` return a `RateLimitError`,
which the catch block then treats as retryable — a second attempt is issued
although the first produced neither an HTTP 429 nor a transport-level
failure. -/
theorem httpRequest_retries_non429_response :
    let env : ErrEnv := { code := some "rate_limited"
                          etype := some "rate_limit_error"
                          message := some "slow down" }
    let r500 : MockResponse := { ok := false, status := 500, body := some (some env) }
    let oracle : Nat → AttemptOutcome := fun n =>
      if n = 0 then .resp r500 else .resp { ok := true, status := 200, dataVal := 7 }
    (runRequest 3 oracle (fun _ => none) 0 "rid").attempts = 2
    ∧ r500.status ≠ 429 ∧ r500.ok = false := by
  exact ⟨rfl, by decide, rfl⟩

/-! ## C7 — header-source agreement (amended)

The metadata parser cannot distinguish an empty-string header from an
absent one (every use site treats both as falsy), and for a plain record it
finds only lowercase keys.  The amended claim: a `Headers` collection (any
key casing) and the equivalent lowercase-keyed plain record parse to the
same metadata. -/

theorem jsStrOrD_falsy {a b : Option String} (h : falsyEquiv a b) (d : String) :
    jsStrOrD a d = jsStrOrD b d := by
  rcases h with rfl | ⟨h1, h2⟩
  · rfl
  · subst h1; subst h2; rfl

theorem jsStrOrNone_falsy {a b : Option String} (h : falsyEquiv a b) :
    jsStrOrNone a = jsStrOrNone b := by
  rcases h with rfl | ⟨h1, h2⟩
  · rfl
  · subst h1; subst h2; rfl

theorem jsParsedFloatOrZero_falsy {a b : Option String} (h : falsyEquiv a b) :
    jsParsedFloatOrZero a = jsParsedFloatOrZero b := by
  rcases h with rfl | ⟨h1, h2⟩
  · rfl
  · subst h1; subst h2; rfl

theorem jsParsedIntOrZero_falsy {a b : Option String} (h : falsyEquiv a b) :
    jsParsedIntOrZero a = jsParsedIntOrZero b := by
  rcases h with rfl | ⟨h1, h2⟩
  · rfl
  · subst h1; subst h2; rfl

theorem jsGateParseFloat_falsy {a b : Option String} (h : falsyEquiv a b) :
    jsGateParseFloat a = jsGateParseFloat b := by
  rcases h with rfl | ⟨h1, h2⟩
  · rfl
  · subst h1; subst h2; rfl

theorem jsGateParseInt_falsy {a b : Option String} (h : falsyEquiv a b) :
    jsGateParseInt a = jsGateParseInt b := by
  rcases h with rfl | ⟨h1, h2⟩
  · rfl
  · subst h1; subst h2; rfl

theorem eq_true_falsy {a b : Option String} (h : falsyEquiv a b) :
    (a = some "true") ↔ (b = some "true") := by
  rcases h with rfl | ⟨h1, h2⟩
  · exact Iff.rfl
  · subst h1; subst h2
    simp

theorem gate_falsy {α : Type} {a b : Option String} (h : falsyEquiv a b)
    {x y : α} (hxy : (a = some "true") → (b = some "true") → x = y) :
    (if a = some "true" then some x else none)
      = (if b = some "true" then some y else none) := by
  by_cases ha : a = some "true"
  · have hb : b = some "true" := (eq_true_falsy h).mp ha
    rw [if_pos ha, if_pos hb, hxy ha hb]
  · have hb : ¬(b = some "true") := fun hb => ha ((eq_true_falsy h).mpr hb)
    rw [if_neg ha, if_neg hb]

theorem find_lower (hs : List (String × String)) (name : String) :
    ((hs.map (fun p => (asciiLower p.1, p.2))).find?
        (fun p => p.1 = name)).map (·.2)
      = (hs.find? (fun p => asciiLower p.1 = name)).map (·.2) := by
  induction hs with
  | nil => rfl
  | cons kv tl ih =>
    by_cases hk : asciiLower kv.1 = name
    · simp [List.find?, hk]
    · simp only [List.map_cons, List.find?]
      rw [show (decide ((asciiLower kv.1, kv.2).1 = name)) = false by simpa using hk]
      exact ih

theorem getHeader_falsy (hs : List (String × String)) (name : String)
    (hname : asciiLower name = name) :
    falsyEquiv (getHeader (.headersObj hs) name)
      (getHeader (.plain (hs.map (fun p => (asciiLower p.1, p.2)))) name) := by
  show falsyEquiv (headersGet hs name) (plainGet _ name)
  unfold plainGet headersGet
  rw [hname]
  cases hf : (hs.find? (fun p => asciiLower p.1 = name)).map (·.2) with
  | none =>
    rw [(find_lower hs name).trans hf]
    exact Or.inl rfl
  | some v =>
    rw [(find_lower hs name).trans hf]
    by_cases hv : v = ""
    · subst hv
      exact Or.inr ⟨rfl, rfl⟩
    · left
      simp [jsStrOrOpt, String.isEmpty_iff, hv]

theorem parseProxyMetadataCore_falsy (g₁ g₂ : String → Option String)
    (hR : ∀ name, asciiLower name = name → falsyEquiv (g₁ name) (g₂ name)) :
    parseProxyMetadataCore g₁ = parseProxyMetadataCore g₂ := by
  unfold parseProxyMetadataCore
  congr 1
  · exact jsStrOrD_falsy (hR _ (by decide)) _
  · exact decide_eq_decide.mpr (eq_true_falsy (hR _ (by decide)))
  · exact decide_eq_decide.mpr (eq_true_falsy (hR _ (by decide)))
  · exact jsStrOrD_falsy (hR _ (by decide)) _
  · exact jsStrOrD_falsy (hR _ (by decide)) _
  · exact jsStrOrD_falsy (hR _ (by decide)) _
  · exact jsStrOrNone_falsy (hR _ (by decide))
  · refine gate_falsy (hR _ (by decide)) ?_
    intro _ _
    congr 1
    · exact jsParsedFloatOrZero_falsy (hR _ (by decide))
    · exact jsParsedFloatOrZero_falsy (hR _ (by decide))
    · exact jsStrOrD_falsy (hR _ (by decide)) _
  · refine gate_falsy (hR _ (by decide)) ?_
    intro _ _
    congr 1
    · exact jsParsedIntOrZero_falsy (hR _ (by decide))
    · exact jsParsedFloatOrZero_falsy (hR _ (by decide))
    · exact jsStrOrD_falsy (hR _ (by decide)) _
  · refine gate_falsy (hR _ (by decide)) ?_
    intro _ _
    congr 1
    · exact jsParsedFloatOrZero_falsy (hR _ (by decide))
    · exact jsStrOrD_falsy (hR _ (by decide)) _
    · exact jsStrOrD_falsy (hR _ (by decide)) _
  · refine gate_falsy (hR _ (by decide)) ?_
    intro _ _
    congr 1
    · exact jsStrOrD_falsy (hR _ (by decide)) _
    · exact jsParsedFloatOrZero_falsy (hR _ (by decide))
    · exact jsStrOrD_falsy (hR _ (by decide)) _
    · exact jsStrOrD_falsy (hR _ (by decide)) _
    · exact jsStrOrD_falsy (hR _ (by decide)) _
    · exact jsStrOrD_falsy (hR _ (by decide)) _
    · exact jsParsedFloatOrZero_falsy (hR _ (by decide))
  · exact jsGateParseFloat_falsy (hR _ (by decide))
  · exact jsGateParseFloat_falsy (hR _ (by decide))
  · exact jsStrOrNone_falsy (hR _ (by decide))
  · exact jsGateParseInt_falsy (hR _ (by decide))
  · exact jsGateParseInt_falsy (hR _ (by decide))
  · exact jsGateParseFloat_falsy (hR _ (by decide))
  · exact jsGateParseFloat_falsy (hR _ (by decide))
  · exact jsGateParseFloat_falsy (hR _ (by decide))

/-- C7 (amended): `parseProxyMetadata` is case-insensitive over a `Headers`
collection and produces identical output for the equivalent plain
string-keyed record provided the record's keys are lowercase: for any header
list, the `Headers` view and the lowercase-keyed plain view parse to equal
metadata.  (The original claim fails for plain records with non-lowercase
keys — see the counterexample.) -/
theorem parseProxyMetadata_lowercase_agreement (hs : List (String × String)) :
    parseProxyMetadata (.headersObj hs)
      = parseProxyMetadata (.plain (hs.map (fun p => (asciiLower p.1, p.2)))) := by
  unfold parseProxyMetadata
  exact parseProxyMetadataCore_falsy _ _ (fun name hname => getHeader_falsy hs name hname)


/-! ## C1 — retry policy of the transport core (amended) -/

/-- C1 (amended): every `HttpClient.request` call issues at most
`maxRetries + 1` attempts; an attempt is retried only when attempts remain
and it produced an HTTP 429 response, a retryable transport-level failure
(network `TypeError` mentioning fetch, or an abort — including caller
cancellation), or — the amendment — a non-429 response whose error body
decodes to a rate-limit code; every other typed error raised during an
attempt propagates to the caller immediately, ending the call at that
attempt; and when the final attempt was a transport-level throw the error
raised is the typed `NetworkError` wrapping that failure (the result type
itself witnesses that only typed `LockErr` values are ever raised). -/
theorem httpRequest_retry_policy (mr : Nat) (oracle : Nat → AttemptOutcome)
    (dp : String → Option Int) (now : Int) (rid : String) :
    (runRequest mr oracle dp now rid).attempts ≤ mr + 1
    ∧ (∀ i, i + 1 < (runRequest mr oracle dp now rid).attempts →
        retriableOutcome rid (oracle i) ∧ i < mr)
    ∧ (∀ i r, i < (runRequest mr oracle dp now rid).attempts →
        oracle i = .resp r → r.ok = false → r.status ≠ 429 →
        (parseError (r.body.getD none) (some (jsStrOrD r.xRequestId rid))).name
          ≠ "RateLimitError" →
        (runRequest mr oracle dp now rid).attempts = i + 1 ∧
        (runRequest mr oracle dp now rid).result
          = .error (parseError (r.body.getD none) (some (jsStrOrD r.xRequestId rid))))
    ∧ (∀ pe, oracle ((runRequest mr oracle dp now rid).attempts - 1) = .throws pe →
        (runRequest mr oracle dp now rid).result
          = .error (mkNetworkError (jsStrOrD (some pe.message) "Network request failed")
              (some pe) (some rid))) := by
  refine ⟨?_, ?_, ?_, ?_⟩
  · have h := runAux_attempts_le mr oracle dp now rid (mr + 1) 0 none []
    unfold runRequest
    omega
  · intro i h
    exact runAux_retried_only mr oracle dp now rid (mr + 1) 0 none [] i (Nat.zero_le i) h
  · intro i r h hor hok h429 hname
    exact runAux_immediate_error mr oracle dp now rid (mr + 1) 0 none [] i r
      (Nat.zero_le i) h hor hok h429 hname
  · intro pe hpe
    exact runAux_transport_wrap mr oracle dp now rid (mr + 1) 0 none [] (by omega) pe hpe

/-- Witness for C1: a request whose every attempt fails with a network
`TypeError` retries (outcome classified retriable) and finally raises the
typed `NetworkError` wrapping the last failure. -/
theorem httpRequest_retry_policy_witness :
    retriableOutcome "rid"
      ((fun _ : Nat => AttemptOutcome.throws ⟨"TypeError", "Failed to fetch", true⟩) 0)
    ∧ (runRequest 2 (fun _ => .throws ⟨"TypeError", "Failed to fetch", true⟩)
        (fun _ => none) 0 "rid").result
      = .error (mkNetworkError (jsStrOrD (some "Failed to fetch") "Network request failed")
          (some ⟨"TypeError", "Failed to fetch", true⟩) (some "rid")) := by
  constructor
  · exact ((httpRequest_retry_policy 2
      (fun _ => .throws ⟨"TypeError", "Failed to fetch", true⟩)
      (fun _ => none) 0 "rid").2.1 0 (by decide)).1
  · exact (httpRequest_retry_policy 2
      (fun _ => .throws ⟨"TypeError", "Failed to fetch", true⟩)
      (fun _ => none) 0 "rid").2.2.2 ⟨"TypeError", "Failed to fetch", true⟩ rfl

/-! ## C2 — 429 handling (amended) -/

/-- C2 (amended): each retry sleeps exactly once (`sleeps` has one entry per
retry); the sleep after a 429 attempt is the parsed `Retry-After` duration
when that parses to a nonzero value — an integer is seconds × 1000, an HTTP
date is `max 0 (date - now)` (see `parseRetryAfter`) — and the exponential
backoff `min(1000·2^attempt, 30000)` when the signal is absent, unparseable
or zero (`jsNumOr` is the source's `||` fallback, the amendment being the
zero case); and when the final attempt is a 429 the call raises a
rate-limit error whose `retryAfter` field is exactly the parsed duration. -/
theorem rateLimit_sleep_policy (mr : Nat) (oracle : Nat → AttemptOutcome)
    (dp : String → Option Int) (now : Int) (rid : String) :
    ((runRequest mr oracle dp now rid).sleeps.length
      = (runRequest mr oracle dp now rid).attempts - 1)
    ∧ (∀ i r, i + 1 < (runRequest mr oracle dp now rid).attempts →
        oracle i = .resp r → r.ok = false → r.status = 429 →
        ((runRequest mr oracle dp now rid).sleeps)[i]?
          = some (jsNumOr (parseRetryAfter dp now r.retryAfter) (calculateBackoff i)))
    ∧ (∀ r, oracle ((runRequest mr oracle dp now rid).attempts - 1) = .resp r →
        r.ok = false → r.status = 429 →
        ∃ e, (runRequest mr oracle dp now rid).result = .error e ∧
          e.name = "RateLimitError" ∧ e.status = some 429 ∧
          e.retryAfter = parseRetryAfter dp now r.retryAfter) := by
  refine ⟨?_, ?_, ?_⟩
  · have h := runAux_sleeps_length mr oracle dp now rid (mr + 1) 0 none [] (by omega)
    unfold runRequest
    simpa using h
  · intro i r h hor hok h429
    have hs := runAux_sleep_at mr oracle dp now rid (mr + 1) 0 none [] i r
      (Nat.zero_le i) h hor hok h429
    simpa using hs
  · intro r hor hok h429
    exact runAux_exhausted_429 mr oracle dp now rid (mr + 1) 0 none []
      (by omega) (by omega) r hor hok h429

/-- Witness for C2: with `Retry-After: 2` the retry sleeps 2000 ms, and an
exhausted 429 run raises a rate-limit error carrying 2000 ms. -/
theorem rateLimit_sleep_policy_witness :
    (((runRequest 1 (fun n => if n = 0 then .resp { ok := false, status := 429, retryAfter := some "2" } else .resp { ok := true, status := 200 }) (fun _ => none) 0 "rid").sleeps)[0]?
      = some (jsNumOr (parseRetryAfter (fun _ => none) 0 (some "2")) (calculateBackoff 0)))
    ∧ (∃ e, (runRequest 1 (fun _ => .resp { ok := false, status := 429, retryAfter := some "2" }) (fun _ => none) 0 "rid").result = .error e ∧
        e.name = "RateLimitError" ∧ e.status = some 429 ∧
        e.retryAfter = parseRetryAfter (fun _ => none) 0 (some "2")) := by
  constructor
  · exact (rateLimit_sleep_policy 1
      (fun n => if n = 0 then .resp { ok := false, status := 429, retryAfter := some "2" } else .resp { ok := true, status := 200 })
      (fun _ => none) 0 "rid").2.1 0
      { ok := false, status := 429, retryAfter := some "2" } (by decide) rfl rfl rfl
  · exact (rateLimit_sleep_policy 1
      (fun _ => .resp { ok := false, status := 429, retryAfter := some "2" })
      (fun _ => none) 0 "rid").2.2
      { ok := false, status := 429, retryAfter := some "2" } rfl rfl rfl



theorem b64Val_b64Char_fin : ∀ n : Fin 64, b64Val (b64Char n.val) = some n.val := by decide

theorem b64Val_b64Char {n : Nat} (h : n < 64) : b64Val (b64Char n) = some n :=
  b64Val_b64Char_fin ⟨n, h⟩

theorem b64Char_ne_pad_fin : ∀ n : Fin 64, b64Char n.val ≠ '=' := by decide

theorem b64Char_ne_pad {n : Nat} (h : n < 64) : b64Char n ≠ '=' :=
  b64Char_ne_pad_fin ⟨n, h⟩

theorem b64Decode_encode : ∀ l : List Nat, (∀ b ∈ l, b < 256) →
    b64Decode (b64Encode l) = some l
  | [], _ => rfl
  | [b1], h => by
    have h1 : b1 < 256 := h b1 (by simp)
    show b64Decode [b64Char (b1 / 4), b64Char (b1 % 4 * 16), '=', '='] = some [b1]
    have e1 : b1 / 4 * 4 + b1 % 4 * 16 / 16 = b1 := by omega
    rw [b64Decode]
    rw [b64Val_b64Char (by omega), b64Val_b64Char (by omega)]
    simp
    omega
  | [b1, b2], h => by
    have h1 : b1 < 256 := h b1 (by simp)
    have h2 : b2 < 256 := h b2 (by simp)
    show b64Decode [b64Char (b1 / 4), b64Char (b1 % 4 * 16 + b2 / 16),
      b64Char (b2 % 16 * 4), '='] = some [b1, b2]
    have e1 : b1 / 4 * 4 + (b1 % 4 * 16 + b2 / 16) / 16 = b1 := by omega
    have e2 : (b1 % 4 * 16 + b2 / 16) % 16 * 16 + b2 % 16 * 4 / 4 = b2 := by omega
    rw [b64Decode]
    rw [b64Val_b64Char (by omega), b64Val_b64Char (by omega)]
    simp only []
    rw [if_neg (b64Char_ne_pad (by omega))]
    rw [b64Val_b64Char (by omega)]
    simp
    omega
  | b1 :: b2 :: b3 :: rest, h => by
    have h1 : b1 < 256 := h b1 (by simp)
    have h2 : b2 < 256 := h b2 (by simp)
    have h3 : b3 < 256 := h b3 (by simp)
    have hrest : ∀ b ∈ rest, b < 256 := fun b hb => h b (by simp [hb])
    show b64Decode (b64Char (b1 / 4) :: b64Char (b1 % 4 * 16 + b2 / 16)
      :: b64Char (b2 % 16 * 4 + b3 / 64) :: b64Char (b3 % 64) :: b64Encode rest)
      = some (b1 :: b2 :: b3 :: rest)
    have e1 : b1 / 4 * 4 + (b1 % 4 * 16 + b2 / 16) / 16 = b1 := by omega
    have e2 : (b1 % 4 * 16 + b2 / 16) % 16 * 16 + (b2 % 16 * 4 + b3 / 64) / 4 = b2 := by
      omega
    have e3 : (b2 % 16 * 4 + b3 / 64) % 4 * 64 + b3 % 64 = b3 := by omega
    rw [b64Decode]
    rw [b64Val_b64Char (by omega), b64Val_b64Char (by omega)]
    simp only []
    rw [if_neg (b64Char_ne_pad (by omega))]
    rw [b64Val_b64Char (by omega)]
    simp only []
    rw [if_neg (b64Char_ne_pad (by omega))]
    rw [b64Val_b64Char (by omega)]
    simp only []
    rw [b64Decode_encode rest hrest]
    simp
    omega

theorem atob_btoa (s : String) (h : strLatin1 s = true) :
    ∃ enc, btoa s = some enc ∧ atob enc = some s := by
  refine ⟨String.mk (b64Encode (s.data.map Char.toNat)), ?_, ?_⟩
  · unfold btoa
    rw [if_pos h]
  · unfold atob
    have hb : ∀ b ∈ s.data.map Char.toNat, b < 256 := by
      intro b hb
      obtain ⟨c, hc, rfl⟩ := List.mem_map.mp hb
      have := List.all_eq_true.mp h c hc
      simpa using this
    show (b64Decode ((String.mk (b64Encode (s.data.map Char.toNat))).data)).map
      (fun bs => String.mk (bs.map Char.ofNat)) = some s
    have hdata : (String.mk (b64Encode (s.data.map Char.toNat))).data
        = b64Encode (s.data.map Char.toNat) := rfl
    rw [hdata, b64Decode_encode _ hb]
    show some (String.mk ((s.data.map Char.toNat).map Char.ofNat)) = some s
    have hmm : (s.data.map Char.toNat).map Char.ofNat = s.data := by
      rw [List.map_map]
      apply List.map_id''
      intro c
      exact Char.ofNat_toNat c
    rw [hmm]

theorem digit_toNat : ∀ d : Fin 10, (Char.ofNat (48 + d.val)).toNat = 48 + d.val := by
  decide

theorem digit_isDigit : ∀ d : Fin 10, (Char.ofNat (48 + d.val)).isDigit = true := by
  decide

theorem digit_toNat' {d : Nat} (h : d < 10) : (Char.ofNat (48 + d)).toNat = 48 + d :=
  digit_toNat ⟨d, h⟩

theorem digit_isDigit' {d : Nat} (h : d < 10) : (Char.ofNat (48 + d)).isDigit = true :=
  digit_isDigit ⟨d, h⟩

theorem natToCharsAux_append (n : Nat) :
    ∀ acc : List Char, natToCharsAux n acc = natToCharsAux n [] ++ acc := by
  induction n using Nat.strong_induction_on with
  | _ n ih =>
    intro acc
    by_cases h : n < 10
    · rw [natToCharsAux, if_pos h, natToCharsAux, if_pos h]
      rfl
    · rw [natToCharsAux, if_neg h]
      conv_rhs => rw [natToCharsAux, if_neg h]
      have hlt : n / 10 < n := Nat.div_lt_self (by omega) (by omega)
      rw [ih (n / 10) hlt (Char.ofNat (48 + n % 10) :: acc),
          ih (n / 10) hlt [Char.ofNat (48 + n % 10)]]
      simp

theorem natToChars_ne_nil (n : Nat) : natToChars n ≠ [] := by
  unfold natToChars
  by_cases h : n < 10
  · rw [natToCharsAux, if_pos h]
    simp
  · rw [natToCharsAux, if_neg h, natToCharsAux_append]
    simp

theorem natToChars_digits (n : Nat) : ∀ c ∈ natToChars n, c.isDigit = true := by
  induction n using Nat.strong_induction_on with
  | _ n ih =>
    intro c hc
    unfold natToChars at hc
    by_cases h : n < 10
    · rw [natToCharsAux, if_pos h] at hc
      simp only [List.mem_singleton] at hc
      subst hc
      exact digit_isDigit' h
    · rw [natToCharsAux, if_neg h, natToCharsAux_append] at hc
      rcases List.mem_append.mp hc with hc | hc
      · exact ih (n / 10) (Nat.div_lt_self (by omega) (by omega)) c hc
      · simp only [List.mem_singleton] at hc
        subst hc
        exact digit_isDigit' (by omega)

theorem digitsVal_append_one (l : List Char) (c : Char) :
    digitsVal (l ++ [c]) = digitsVal l * 10 + (c.toNat - 48) := by
  unfold digitsVal
  rw [List.foldl_append]
  rfl

theorem digitsVal_natToChars (n : Nat) : digitsVal (natToChars n) = n := by
  induction n using Nat.strong_induction_on with
  | _ n ih =>
    unfold natToChars
    by_cases h : n < 10
    · rw [natToCharsAux, if_pos h]
      show digitsVal [Char.ofNat (48 + n)] = n
      unfold digitsVal
      simp [digit_toNat' h]
    · rw [natToCharsAux, if_neg h, natToCharsAux_append]
      rw [digitsVal_append_one]
      rw [show natToCharsAux (n / 10) [] = natToChars (n / 10) from rfl]
      rw [ih (n / 10) (Nat.div_lt_self (by omega) (by omega))]
      rw [digit_toNat' (show n % 10 < 10 by omega)]
      omega

theorem takeWhile_append_all {p : Char → Bool} :
    ∀ (l1 l2 : List Char), (∀ c ∈ l1, p c = true) →
      (match l2 with | [] => True | c :: _ => p c = false) →
      (l1 ++ l2).takeWhile p = l1 := by
  intro l1
  induction l1 with
  | nil =>
    intro l2 _ h2
    cases l2 with
    | nil => rfl
    | cons c t =>
      simp only [List.nil_append, List.takeWhile_cons, h2]
      rfl
  | cons c t ih =>
    intro l2 h1 h2
    simp only [List.cons_append, List.takeWhile_cons, h1 c (by simp), if_true]
    rw [ih l2 (fun d hd => h1 d (by simp [hd])) h2]

theorem parseNumFrom_spec (n : Nat) (rest : List Char) (hrest : headNotDigit rest) :
    parseNumFrom (natToChars n ++ rest) = some (.num (n : Int), rest) := by
  unfold parseNumFrom
  have htw : (natToChars n ++ rest).takeWhile Char.isDigit = natToChars n := by
    apply takeWhile_append_all _ _ (natToChars_digits n)
    cases rest with
    | nil => trivial
    | cons c t => exact hrest
  rw [htw]
  rw [if_neg (by simpa using natToChars_ne_nil n)]
  rw [digitsVal_natToChars]
  rw [List.drop_left]

theorem hexVal_hexDigitChar : ∀ n : Fin 16, hexVal (hexDigitChar n.val) = some n.val := by
  decide

theorem hexVal_hexDigitChar' {n : Nat} (h : n < 16) :
    hexVal (hexDigitChar n) = some n :=
  hexVal_hexDigitChar ⟨n, h⟩

theorem parseStringBody_escapeList :
    ∀ (cs rest : List Char), parseStringBody (escapeList cs ++ rest) = some (cs, rest) := by
  intro cs
  induction cs with
  | nil =>
    intro rest
    show parseStringBody ('"' :: rest) = some ([], rest)
    rw [parseStringBody.eq_def]
    simp +decide only [if_true, if_false]
  | cons c t ih =>
    intro rest
    show parseStringBody ((escapeChar c ++ escapeList t) ++ rest) = some (c :: t, rest)
    rw [List.append_assoc]
    unfold escapeChar
    by_cases h1 : c = '"'
    · subst h1
      rw [if_pos rfl]
      show parseStringBody ('\\' :: '"' :: (escapeList t ++ rest)) = _
      rw [parseStringBody.eq_def]
      simp +decide only [ih rest, if_true, if_false]
      rfl
    · rw [if_neg h1]
      by_cases h2 : c = '\\'
      · subst h2
        rw [if_pos rfl]
        show parseStringBody ('\\' :: '\\' :: (escapeList t ++ rest)) = _
        rw [parseStringBody.eq_def]
        simp +decide only [ih rest, if_true, if_false]
        rfl
      · rw [if_neg h2]
        by_cases h3 : c = '\x08'
        · subst h3
          rw [if_pos rfl]
          show parseStringBody ('\\' :: 'b' :: (escapeList t ++ rest)) = _
          rw [parseStringBody.eq_def]
          simp +decide only [ih rest, if_true, if_false]
          rfl
        · rw [if_neg h3]
          by_cases h4 : c = '\t'
          · subst h4
            rw [if_pos rfl]
            show parseStringBody ('\\' :: 't' :: (escapeList t ++ rest)) = _
            rw [parseStringBody.eq_def]
            simp +decide only [ih rest, if_true, if_false]
            rfl
          · rw [if_neg h4]
            by_cases h5 : c = '\n'
            · subst h5
              rw [if_pos rfl]
              show parseStringBody ('\\' :: 'n' :: (escapeList t ++ rest)) = _
              rw [parseStringBody.eq_def]
              simp +decide only [ih rest, if_true, if_false]
              rfl
            · rw [if_neg h5]
              by_cases h6 : c = '\x0c'
              · subst h6
                rw [if_pos rfl]
                show parseStringBody ('\\' :: 'f' :: (escapeList t ++ rest)) = _
                rw [parseStringBody.eq_def]
                simp +decide only [ih rest, if_true, if_false]
                rfl
              · rw [if_neg h6]
                by_cases h7 : c = '\r'
                · subst h7
                  rw [if_pos rfl]
                  show parseStringBody ('\\' :: 'r' :: (escapeList t ++ rest)) = _
                  rw [parseStringBody.eq_def]
                  simp +decide only [ih rest, if_true, if_false]
                  rfl
                · rw [if_neg h7]
                  by_cases h8 : c.toNat < 32
                  · rw [if_pos h8]
                    show parseStringBody ('\\' :: 'u' :: '0' :: '0'
                      :: hexDigitChar (c.toNat / 16) :: hexDigitChar (c.toNat % 16)
                      :: (escapeList t ++ rest)) = _
                    simp only [parseStringBody]
                    rw [show hexVal '0' = some 0 from rfl]
                    rw [hexVal_hexDigitChar' (show c.toNat / 16 < 16 by omega),
                        hexVal_hexDigitChar' (show c.toNat % 16 < 16 by omega)]
                    simp only [ih rest]
                    have hc : ((0 * 16 + 0) * 16 + c.toNat / 16) * 16 + c.toNat % 16
                        = c.toNat := by omega
                    rw [hc, Char.ofNat_toNat]
                    simp +decide only [if_true, if_false]
                    rfl
                  · rw [if_neg h8]
                    show parseStringBody (c :: (escapeList t ++ rest)) = _
                    rw [parseStringBody.eq_def]
                    simp only []
                    rw [if_neg h1, if_neg h2, if_neg h8, ih rest]
                    rfl

/-- Every digit character of a serialised natural is `Char.ofNat (48 + d)`
with `d < 10`. -/
theorem natToChars_shape (n : Nat) :
    ∀ c ∈ natToChars n, ∃ d, d < 10 ∧ c = Char.ofNat (48 + d) := by
  induction n using Nat.strong_induction_on with
  | _ n ih =>
    intro c hc
    unfold natToChars at hc
    by_cases h : n < 10
    · rw [natToCharsAux, if_pos h] at hc
      simp only [List.mem_singleton] at hc
      exact ⟨n, h, hc⟩
    · rw [natToCharsAux, if_neg h, natToCharsAux_append] at hc
      rcases List.mem_append.mp hc with hc | hc
      · exact ih (n / 10) (Nat.div_lt_self (by omega) (by omega)) c hc
      · simp only [List.mem_singleton] at hc
        exact ⟨n % 10, by omega, hc⟩

theorem digitChar_props : ∀ d : Fin 10,
    Char.ofNat (48 + d.val) ≠ 'n' ∧ Char.ofNat (48 + d.val) ≠ 't'
    ∧ Char.ofNat (48 + d.val) ≠ 'f' ∧ Char.ofNat (48 + d.val) ≠ '"'
    ∧ Char.ofNat (48 + d.val) ≠ '[' ∧ Char.ofNat (48 + d.val) ≠ '\x7b'
    ∧ Char.ofNat (48 + d.val) ≠ '-' ∧ Char.ofNat (48 + d.val) ≠ ']'
    ∧ Char.ofNat (48 + d.val) ≠ '\x7d'
    ∧ jsonWsChar (Char.ofNat (48 + d.val)) = false := by
  decide

/-- The first character of a serialised value: never whitespace, never a
closing bracket or brace. -/
theorem serJson_head (v : Json) :
    ∃ c t, serJson v = c :: t ∧ jsonWsChar c = false ∧ c ≠ ']' ∧ c ≠ '\x7d' := by
  cases v with
  | null =>
    refine ⟨'n', _, rfl, ?_, ?_, ?_⟩ <;> decide
  | bool b =>
    cases b with
    | true =>
      refine ⟨'t', _, rfl, ?_, ?_, ?_⟩ <;> decide
    | false =>
      refine ⟨'f', _, rfl, ?_, ?_, ?_⟩ <;> decide
  | num n =>
    show ∃ c t, intToChars n = c :: t ∧ _
    unfold intToChars
    by_cases h : n < 0
    · rw [if_pos h]
      refine ⟨'-', _, rfl, ?_, ?_, ?_⟩ <;> decide
    · rw [if_neg h]
      cases hn : natToChars n.toNat with
      | nil => exact absurd hn (natToChars_ne_nil _)
      | cons c t =>
        obtain ⟨d, hd, hcd⟩ := natToChars_shape n.toNat c (by rw [hn]; simp)
        have hp := digitChar_props ⟨d, hd⟩
        subst hcd
        exact ⟨_, t, rfl, hp.2.2.2.2.2.2.2.2.2, hp.2.2.2.2.2.2.2.1, hp.2.2.2.2.2.2.2.2.1⟩
  | str s =>
    refine ⟨'"', _, rfl, ?_, ?_, ?_⟩ <;> decide
  | arr l =>
    cases l with
    | nil =>
      refine ⟨'[', _, rfl, ?_, ?_, ?_⟩ <;> decide
    | cons v vs =>
      refine ⟨'[', _, rfl, ?_, ?_, ?_⟩ <;> decide
  | obj fs =>
    cases fs with
    | nil =>
      refine ⟨'\x7b', _, rfl, ?_, ?_, ?_⟩ <;> decide
    | cons kv fs' =>
      obtain ⟨k, v⟩ := kv
      refine ⟨'\x7b', _, rfl, ?_, ?_, ?_⟩ <;> decide

theorem skipWs_cons_false {c : Char} (h : jsonWsChar c = false) (t : List Char) :
    skipWs (c :: t) = c :: t := by
  simp [skipWs, List.dropWhile_cons, h]


theorem jfuel_pos : ∀ v : Json, 1 ≤ jfuel v := by
  intro v
  cases v <;> simp [jfuel]

theorem lfuel_pos : ∀ l : List Json, 1 ≤ lfuel l := by
  intro l
  cases l <;> simp [lfuel]

theorem ffuel_pos : ∀ fs : List (String × Json), 1 ≤ ffuel fs := by
  intro fs
  cases fs with
  | nil => simp [ffuel]
  | cons kv fs =>
    obtain ⟨k, v⟩ := kv
    simp [ffuel]

theorem headNotDigit_serElems (vs : List Json) (rest : List Char) :
    headNotDigit (serElems vs ++ ']' :: rest) := by
  cases vs with
  | nil =>
    show headNotDigit (']' :: rest)
    show (']' : Char).isDigit = false
    decide
  | cons v vs =>
    show headNotDigit (',' :: _)
    show (',' : Char).isDigit = false
    decide

theorem headNotDigit_serFields (fs : List (String × Json)) (rest : List Char) :
    headNotDigit (serFields fs ++ '\x7d' :: rest) := by
  cases fs with
  | nil =>
    show headNotDigit ('\x7d' :: rest)
    show ('\x7d' : Char).isDigit = false
    decide
  | cons kv fs =>
    obtain ⟨k, v⟩ := kv
    show headNotDigit (',' :: _)
    show (',' : Char).isDigit = false
    decide

theorem parseVal_null (fuel : Nat) (rest : List Char) :
    parseVal (fuel + 1) (serJson .null ++ rest) = some (.null, rest) := by
  show parseVal (fuel + 1) ('n' :: 'u' :: 'l' :: 'l' :: rest) = some (.null, rest)
  rw [parseVal.eq_def]
  simp +decide only [skipWs, List.dropWhile_cons, if_true, if_false]

theorem parseVal_bool (fuel : Nat) (b : Bool) (rest : List Char) :
    parseVal (fuel + 1) (serJson (.bool b) ++ rest) = some (.bool b, rest) := by
  cases b with
  | true =>
    show parseVal (fuel + 1) ('t' :: 'r' :: 'u' :: 'e' :: rest) = _
    rw [parseVal.eq_def]
    simp +decide only [skipWs, List.dropWhile_cons, if_true, if_false]
  | false =>
    show parseVal (fuel + 1) ('f' :: 'a' :: 'l' :: 's' :: 'e' :: rest) = _
    rw [parseVal.eq_def]
    simp +decide only [skipWs, List.dropWhile_cons, if_true, if_false]

theorem parseVal_str (fuel : Nat) (s : String) (rest : List Char) :
    parseVal (fuel + 1) (serJson (.str s) ++ rest) = some (.str s, rest) := by
  show parseVal (fuel + 1) ('"' :: (escapeList s.data ++ rest)) = _
  rw [parseVal.eq_def]
  simp +decide only [skipWs, List.dropWhile_cons, if_true, if_false]
  rw [parseStringBody_escapeList]
  rfl


theorem digitChar_props' {d : Nat} (hd : d < 10) :
    Char.ofNat (48 + d) ≠ 'n' ∧ Char.ofNat (48 + d) ≠ 't'
    ∧ Char.ofNat (48 + d) ≠ 'f' ∧ Char.ofNat (48 + d) ≠ '"'
    ∧ Char.ofNat (48 + d) ≠ '[' ∧ Char.ofNat (48 + d) ≠ '\x7b'
    ∧ Char.ofNat (48 + d) ≠ '-' ∧ Char.ofNat (48 + d) ≠ ']'
    ∧ Char.ofNat (48 + d) ≠ '\x7d'
    ∧ jsonWsChar (Char.ofNat (48 + d)) = false :=
  digitChar_props ⟨d, hd⟩

theorem parseVal_num (fuel : Nat) (n : Int) (rest : List Char) (h : headNotDigit rest) :
    parseVal (fuel + 1) (serJson (.num n) ++ rest) = some (.num n, rest) := by
  show parseVal (fuel + 1) (intToChars n ++ rest) = _
  unfold intToChars
  by_cases hneg : n < 0
  · rw [if_pos hneg]
    show parseVal (fuel + 1) ('-' :: (natToChars n.natAbs ++ rest)) = _
    rw [parseVal.eq_def]
    simp +decide only [skipWs, List.dropWhile_cons, if_true, if_false]
    rw [parseNumFrom_spec n.natAbs rest h]
    simp only []
    have he : -(n.natAbs : Int) = n := by omega
    rw [he]
  · rw [if_neg hneg]
    cases hn : natToChars n.toNat with
    | nil => exact absurd hn (natToChars_ne_nil _)
    | cons c t =>
      obtain ⟨d, hd, hcd⟩ := natToChars_shape n.toNat c (by rw [hn]; simp)
      have hp := digitChar_props' hd
      subst hcd
      show parseVal (fuel + 1) (Char.ofNat (48 + d) :: (t ++ rest)) = _
      rw [parseVal.eq_def]
      simp only []
      rw [skipWs_cons_false hp.2.2.2.2.2.2.2.2.2]
      simp only []
      rw [if_neg hp.1, if_neg hp.2.1, if_neg hp.2.2.1, if_neg hp.2.2.2.1,
          if_neg hp.2.2.2.2.1, if_neg hp.2.2.2.2.2.1, if_neg hp.2.2.2.2.2.2.1]
      rw [show Char.ofNat (48 + d) :: (t ++ rest) = natToChars n.toNat ++ rest by
        rw [hn]; rfl]
      rw [parseNumFrom_spec n.toNat rest h]
      have he : (n.toNat : Int) = n := by omega
      rw [he]

theorem parseVal_arr_nil (fuel : Nat) (rest : List Char) :
    parseVal (fuel + 1) (serJson (.arr []) ++ rest) = some (.arr [], rest) := by
  show parseVal (fuel + 1) ('[' :: ']' :: rest) = _
  rw [parseVal.eq_def]
  simp +decide only [skipWs, List.dropWhile_cons, if_true, if_false]

theorem parseVal_obj_nil (fuel : Nat) (rest : List Char) :
    parseVal (fuel + 1) (serJson (.obj []) ++ rest) = some (.obj [], rest) := by
  show parseVal (fuel + 1) ('\x7b' :: '\x7d' :: rest) = _
  rw [parseVal.eq_def]
  simp +decide only [skipWs, List.dropWhile_cons, if_true, if_false]


theorem parseVal_arr_cons (fuel : Nat) (v : Json) (vs : List Json) (rest : List Char)
    (hE : parseElems fuel (serElemsList (v :: vs) ++ ']' :: rest) = some (v :: vs, rest)) :
    parseVal (fuel + 1) (serJson (.arr (v :: vs)) ++ rest) = some (.arr (v :: vs), rest) := by
  obtain ⟨c0, t0, hs, hws, hne1, hne2⟩ := serJson_head v
  show parseVal (fuel + 1) ('[' :: (((serJson v ++ serElems vs) ++ [']']) ++ rest)) = _
  rw [List.append_assoc]
  show parseVal (fuel + 1) ('[' :: ((serJson v ++ serElems vs) ++ (']' :: rest))) = _
  rw [parseVal.eq_def]
  simp only []
  rw [skipWs_cons_false (by decide)]
  simp +decide only [if_true, if_false]
  have hE' : parseElems fuel ((serJson v ++ serElems vs) ++ ']' :: rest)
      = some (v :: vs, rest) := hE
  rw [hs] at hE' ⊢
  simp only [List.cons_append] at hE' ⊢
  rw [skipWs_cons_false hws]
  simp only []
  rw [if_neg hne1]
  rw [hE']
  rfl

theorem parseVal_obj_cons (fuel : Nat) (k : String) (v : Json)
    (fs : List (String × Json)) (rest : List Char)
    (hF : parseFields fuel (serFieldsList ((k, v) :: fs) ++ '\x7d' :: rest)
        = some ((k, v) :: fs, rest)) :
    parseVal (fuel + 1) (serJson (.obj ((k, v) :: fs)) ++ rest)
      = some (.obj ((k, v) :: fs), rest) := by
  show parseVal (fuel + 1)
      ('\x7b' :: (((escapeString k ++ ':' :: serJson v ++ serFields fs) ++ ['\x7d']) ++ rest)) = _
  rw [List.append_assoc]
  show parseVal (fuel + 1)
      ('\x7b' :: ((escapeString k ++ ':' :: serJson v ++ serFields fs) ++ ('\x7d' :: rest))) = _
  rw [parseVal.eq_def]
  simp only []
  rw [skipWs_cons_false (by decide)]
  simp +decide only [if_true, if_false]
  have hF' : parseFields fuel ((escapeString k ++ ':' :: serJson v ++ serFields fs)
        ++ '\x7d' :: rest) = some ((k, v) :: fs, rest) := hF
  rw [show escapeString k = '"' :: escapeList k.data from rfl] at hF' ⊢
  simp only [List.cons_append] at hF' ⊢
  rw [skipWs_cons_false (by decide)]
  simp only []
  rw [if_neg (by decide : ¬('"' : Char) = '\x7d')]
  rw [hF']
  rfl

theorem parseElems_last (fuel : Nat) (v : Json) (rest : List Char)
    (hV : parseVal fuel (serJson v ++ (']' :: rest)) = some (v, ']' :: rest)) :
    parseElems (fuel + 1) (serElemsList [v] ++ ']' :: rest) = some ([v], rest) := by
  rw [parseElems.eq_def]
  simp only []
  have hcs : serElemsList [v] ++ ']' :: rest = serJson v ++ ']' :: rest := by
    show (serJson v ++ serElems []) ++ ']' :: rest = _
    show (serJson v ++ []) ++ ']' :: rest = _
    rw [List.append_nil]
  rw [hcs, hV]
  simp only []
  rw [skipWs_cons_false (by decide)]
  simp +decide only [if_true, if_false]

theorem parseElems_cons (fuel : Nat) (v v2 : Json) (vs : List Json) (rest : List Char)
    (hV : parseVal fuel (serJson v ++ (serElems (v2 :: vs) ++ ']' :: rest))
        = some (v, serElems (v2 :: vs) ++ ']' :: rest))
    (hE : parseElems fuel (serElemsList (v2 :: vs) ++ ']' :: rest) = some (v2 :: vs, rest)) :
    parseElems (fuel + 1) (serElemsList (v :: v2 :: vs) ++ ']' :: rest)
      = some (v :: v2 :: vs, rest) := by
  rw [parseElems.eq_def]
  simp only []
  have hcs : serElemsList (v :: v2 :: vs) ++ ']' :: rest
      = serJson v ++ (serElems (v2 :: vs) ++ ']' :: rest) := by
    show (serJson v ++ serElems (v2 :: vs)) ++ ']' :: rest = _
    rw [List.append_assoc]
  rw [hcs, hV]
  simp only []
  have hsw : skipWs (serElems (v2 :: vs) ++ ']' :: rest)
      = ',' :: ((serJson v2 ++ serElems vs) ++ ']' :: rest) := by
    show skipWs (',' :: ((serJson v2 ++ serElems vs) ++ ']' :: rest)) = _
    rw [skipWs_cons_false (by decide)]
  rw [hsw]
  simp only []
  simp +decide only [if_true, if_false]
  have hE' : parseElems fuel ((serJson v2 ++ serElems vs) ++ ']' :: rest)
      = some (v2 :: vs, rest) := hE
  rw [hE']
  rfl


theorem parseFields_last (fuel : Nat) (k : String) (v : Json) (rest : List Char)
    (hV : parseVal fuel (serJson v ++ ('\x7d' :: rest)) = some (v, '\x7d' :: rest)) :
    parseFields (fuel + 1) (serFieldsList [(k, v)] ++ '\x7d' :: rest)
      = some ([(k, v)], rest) := by
  rw [parseFields.eq_def]
  simp only []
  have hcs : serFieldsList [(k, v)] ++ '\x7d' :: rest
      = '"' :: (escapeList k.data ++ (':' :: (serJson v ++ '\x7d' :: rest))) := by
    show (escapeString k ++ ':' :: serJson v ++ serFields ([] : List (String × Json)))
        ++ '\x7d' :: rest = _
    rw [show escapeString k = '"' :: escapeList k.data from rfl]
    show ('"' :: escapeList k.data ++ ':' :: serJson v ++ ([] : List Char))
        ++ '\x7d' :: rest = _
    simp [List.cons_append, List.append_assoc]
  rw [hcs]
  rw [skipWs_cons_false (by decide)]
  simp only []
  simp +decide only [if_true, if_false]
  rw [parseStringBody_escapeList]
  simp only []
  rw [skipWs_cons_false (by decide)]
  simp only []
  simp +decide only [if_true, if_false]
  rw [hV]
  simp only []
  rw [skipWs_cons_false (by decide)]
  simp only []
  simp +decide only [if_true, if_false]

theorem parseFields_cons (fuel : Nat) (k : String) (v : Json) (k2 : String) (v2 : Json)
    (fs : List (String × Json)) (rest : List Char)
    (hV : parseVal fuel (serJson v ++ (serFields ((k2, v2) :: fs) ++ '\x7d' :: rest))
        = some (v, serFields ((k2, v2) :: fs) ++ '\x7d' :: rest))
    (hF : parseFields fuel (serFieldsList ((k2, v2) :: fs) ++ '\x7d' :: rest)
        = some ((k2, v2) :: fs, rest)) :
    parseFields (fuel + 1) (serFieldsList ((k, v) :: (k2, v2) :: fs) ++ '\x7d' :: rest)
      = some ((k, v) :: (k2, v2) :: fs, rest) := by
  rw [parseFields.eq_def]
  simp only []
  have hcs : serFieldsList ((k, v) :: (k2, v2) :: fs) ++ '\x7d' :: rest
      = '"' :: (escapeList k.data
          ++ (':' :: (serJson v ++ (serFields ((k2, v2) :: fs) ++ '\x7d' :: rest)))) := by
    show (escapeString k ++ ':' :: serJson v ++ serFields ((k2, v2) :: fs))
        ++ '\x7d' :: rest = _
    rw [show escapeString k = '"' :: escapeList k.data from rfl]
    simp [List.cons_append, List.append_assoc]
  rw [hcs]
  rw [skipWs_cons_false (by decide)]
  simp only []
  simp +decide only [if_true, if_false]
  rw [parseStringBody_escapeList]
  simp only []
  rw [skipWs_cons_false (by decide)]
  simp only []
  simp +decide only [if_true, if_false]
  rw [hV]
  simp only []
  have hsw : skipWs (serFields ((k2, v2) :: fs) ++ '\x7d' :: rest)
      = ',' :: ((escapeString k2 ++ ':' :: serJson v2 ++ serFields fs) ++ '\x7d' :: rest) := by
    show skipWs (',' :: ((escapeString k2 ++ ':' :: serJson v2 ++ serFields fs)
      ++ '\x7d' :: rest)) = _
    rw [skipWs_cons_false (by decide)]
  rw [hsw]
  simp only []
  simp +decide only [if_true, if_false]
  have hF' : parseFields fuel ((escapeString k2 ++ ':' :: serJson v2 ++ serFields fs)
      ++ '\x7d' :: rest) = some ((k2, v2) :: fs, rest) := hF
  rw [hF']
  rfl


theorem parse_ser_main : ∀ fuel : Nat,
    (∀ v : Json, ∀ rest : List Char, jfuel v ≤ fuel → headNotDigit rest →
      parseVal fuel (serJson v ++ rest) = some (v, rest))
    ∧ (∀ l : List Json, ∀ rest : List Char, lfuel l ≤ fuel → l ≠ [] →
      parseElems fuel (serElemsList l ++ ']' :: rest) = some (l, rest))
    ∧ (∀ fs : List (String × Json), ∀ rest : List Char, ffuel fs ≤ fuel → fs ≠ [] →
      parseFields fuel (serFieldsList fs ++ '\x7d' :: rest) = some (fs, rest)) := by
  intro fuel
  induction fuel with
  | zero =>
    refine ⟨?_, ?_, ?_⟩
    · intro v rest hf _
      exact absurd hf (by have := jfuel_pos v; omega)
    · intro l rest hf _
      exact absurd hf (by have := lfuel_pos l; omega)
    · intro fs rest hf _
      exact absurd hf (by have := ffuel_pos fs; omega)
  | succ fuel ih =>
    obtain ⟨ihV, ihE, ihF⟩ := ih
    refine ⟨?_, ?_, ?_⟩
    · intro v rest hf hnd
      cases v with
      | null => exact parseVal_null fuel rest
      | bool b => exact parseVal_bool fuel b rest
      | num n => exact parseVal_num fuel n rest hnd
      | str s => exact parseVal_str fuel s rest
      | arr l =>
        cases l with
        | nil => exact parseVal_arr_nil fuel rest
        | cons v vs =>
          apply parseVal_arr_cons
          apply ihE
          · have he : jfuel (.arr (v :: vs)) = 1 + lfuel (v :: vs) := rfl
            omega
          · simp
      | obj fs =>
        cases fs with
        | nil => exact parseVal_obj_nil fuel rest
        | cons kv fs =>
          obtain ⟨k, v⟩ := kv
          apply parseVal_obj_cons
          apply ihF
          · have he : jfuel (.obj ((k, v) :: fs)) = 1 + ffuel ((k, v) :: fs) := rfl
            omega
          · simp
    · intro l rest hf hne
      cases l with
      | nil => exact absurd rfl hne
      | cons v vs =>
        have he : lfuel (v :: vs) = 1 + max (jfuel v) (lfuel vs) := rfl
        have hm1 := Nat.le_max_left (jfuel v) (lfuel vs)
        have hm2 := Nat.le_max_right (jfuel v) (lfuel vs)
        have hfv : jfuel v ≤ fuel := by omega
        cases vs with
        | nil =>
          apply parseElems_last
          exact ihV v (']' :: rest) hfv (by show (']' : Char).isDigit = false; decide)
        | cons v2 vs2 =>
          have hfvs : lfuel (v2 :: vs2) ≤ fuel := by omega
          apply parseElems_cons
          · exact ihV v (serElems (v2 :: vs2) ++ ']' :: rest) hfv
              (headNotDigit_serElems (v2 :: vs2) rest)
          · exact ihE (v2 :: vs2) rest hfvs (by simp)
    · intro fs rest hf hne
      cases fs with
      | nil => exact absurd rfl hne
      | cons kv fs2 =>
        obtain ⟨k, v⟩ := kv
        have he : ffuel ((k, v) :: fs2) = 1 + max (jfuel v) (ffuel fs2) := rfl
        have hm1 := Nat.le_max_left (jfuel v) (ffuel fs2)
        have hm2 := Nat.le_max_right (jfuel v) (ffuel fs2)
        have hfv : jfuel v ≤ fuel := by omega
        cases fs2 with
        | nil =>
          apply parseFields_last
          exact ihV v ('\x7d' :: rest) hfv (by show ('\x7d' : Char).isDigit = false; decide)
        | cons kv2 fs3 =>
          obtain ⟨k2, v2⟩ := kv2
          have hffs : ffuel ((k2, v2) :: fs3) ≤ fuel := by omega
          apply parseFields_cons
          · exact ihV v (serFields ((k2, v2) :: fs3) ++ '\x7d' :: rest) hfv
              (headNotDigit_serFields ((k2, v2) :: fs3) rest)
          · exact ihF ((k2, v2) :: fs3) rest hffs (by simp)


theorem serJson_ne_nil (v : Json) : 1 ≤ (serJson v).length := by
  obtain ⟨c, t, hs, _, _, _⟩ := serJson_head v
  rw [hs]
  simp

mutual

theorem jfuel_le : ∀ v : Json, jfuel v ≤ (serJson v).length
  | .null => by simp [jfuel, serJson]
  | .bool b => by cases b <;> simp [jfuel, serJson]
  | .num n => by
    have h := serJson_ne_nil (.num n)
    simpa [jfuel] using h
  | .str s => by
    have h := serJson_ne_nil (.str s)
    simpa [jfuel] using h
  | .arr [] => by simp [jfuel, lfuel, serJson]
  | .arr (v :: vs) => by
    have hl := lfuel_le (v :: vs)
    have hsl : (serElemsList (v :: vs)).length
        = (serJson v).length + (serElems vs).length := by
      show (serJson v ++ serElems vs).length = _
      simp
    have hlen : (serJson (.arr (v :: vs))).length
        = (serJson v).length + (serElems vs).length + 2 := by
      show ('[' :: (serJson v ++ serElems vs) ++ [']']).length = _
      simp only [List.length_append, List.length_cons, List.length_nil]
    show 1 + lfuel (v :: vs) ≤ (serJson (.arr (v :: vs))).length
    omega
  | .obj [] => by simp [jfuel, ffuel, serJson]
  | .obj ((k, v) :: fs) => by
    have hf := ffuel_le ((k, v) :: fs)
    have hsl : (serFieldsList ((k, v) :: fs)).length
        = (escapeString k).length + 1 + (serJson v).length + (serFields fs).length := by
      show (escapeString k ++ ':' :: serJson v ++ serFields fs).length = _
      simp only [List.length_append, List.length_cons]
      omega
    have hlen : (serJson (.obj ((k, v) :: fs))).length
        = (escapeString k).length + 1 + (serJson v).length + (serFields fs).length + 2 := by
      show ('\x7b' :: (escapeString k ++ ':' :: serJson v ++ serFields fs)
        ++ ['\x7d']).length = _
      simp only [List.length_append, List.length_cons, List.length_nil]
      omega
    show 1 + ffuel ((k, v) :: fs) ≤ (serJson (.obj ((k, v) :: fs))).length
    omega

theorem lfuel_le : ∀ l : List Json, lfuel l ≤ (serElemsList l).length + 1
  | [] => by simp [lfuel, serElemsList]
  | v :: vs => by
    have h1 := jfuel_le v
    have h2 := lfuel_le vs
    have h3 := serJson_ne_nil v
    have h4 : (serElemsList vs).length ≤ (serElems vs).length := by
      cases vs with
      | nil => simp [serElemsList, serElems]
      | cons x xs =>
        show (serJson x ++ serElems xs).length
          ≤ (',' :: (serJson x ++ serElems xs)).length
        simp
    show 1 + max (jfuel v) (lfuel vs) ≤ (serJson v ++ serElems vs).length + 1
    rw [List.length_append]
    have h5 : max (jfuel v) (lfuel vs)
        ≤ (serJson v).length + (serElems vs).length :=
      Nat.max_le.mpr ⟨by omega, by omega⟩
    omega

theorem ffuel_le : ∀ fs : List (String × Json), ffuel fs ≤ (serFieldsList fs).length + 1
  | [] => by simp [ffuel, serFieldsList]
  | (k, v) :: fs => by
    have h1 := jfuel_le v
    have h2 := ffuel_le fs
    have h3 := serJson_ne_nil v
    have h4 : (serFieldsList fs).length ≤ (serFields fs).length := by
      cases fs with
      | nil => simp [serFieldsList, serFields]
      | cons kv xs =>
        obtain ⟨k2, v2⟩ := kv
        show (escapeString k2 ++ ':' :: serJson v2 ++ serFields xs).length
          ≤ (',' :: (escapeString k2 ++ ':' :: serJson v2 ++ serFields xs)).length
        simp
    have hE : 1 ≤ (escapeString k).length := by
      show 1 ≤ ('"' :: escapeList k.data).length
      simp
    have hlen : (escapeString k ++ ':' :: serJson v ++ serFields fs).length
        = (escapeString k).length + 1 + (serJson v).length + (serFields fs).length := by
      simp only [List.length_append, List.length_cons]
      omega
    show 1 + max (jfuel v) (ffuel fs)
      ≤ (escapeString k ++ ':' :: serJson v ++ serFields fs).length + 1
    rw [hlen]
    have h5 : max (jfuel v) (ffuel fs)
        ≤ (escapeString k).length + 1 + (serJson v).length + (serFields fs).length :=
      Nat.max_le.mpr ⟨by omega, by omega⟩
    omega

end

theorem jsonParse_stringify (v : Json) : jsonParse (jsonStringify v) = some v := by
  unfold jsonParse jsonStringify
  have hd : (String.mk (serJson v)).data = serJson v := rfl
  rw [hd]
  have hmain := (parse_ser_main ((serJson v).length + 1)).1 v []
    (by have := jfuel_le v; omega) trivial
  rw [List.append_nil] at hmain
  rw [hmain]
  rfl


theorem hexDigitChar_lt : ∀ n : Fin 16, (hexDigitChar n.val).toNat < 256 := by
  decide

theorem hexDigitChar_lt' {n : Nat} (h : n < 16) : (hexDigitChar n).toNat < 256 :=
  hexDigitChar_lt ⟨n, h⟩

theorem escapeChar_latin1 (c : Char) (h : c.toNat < 256) :
    ∀ x ∈ escapeChar c, x.toNat < 256 := by
  intro x hx
  unfold escapeChar at hx
  by_cases h1 : c = '"'
  · rw [if_pos h1] at hx
    exact (by decide : ∀ y ∈ ['\\', '"'], y.toNat < 256) x hx
  · rw [if_neg h1] at hx
    by_cases h2 : c = '\\'
    · rw [if_pos h2] at hx
      exact (by decide : ∀ y ∈ ['\\', '\\'], y.toNat < 256) x hx
    · rw [if_neg h2] at hx
      by_cases h3 : c = '\x08'
      · rw [if_pos h3] at hx
        exact (by decide : ∀ y ∈ ['\\', 'b'], y.toNat < 256) x hx
      · rw [if_neg h3] at hx
        by_cases h4 : c = '\t'
        · rw [if_pos h4] at hx
          exact (by decide : ∀ y ∈ ['\\', 't'], y.toNat < 256) x hx
        · rw [if_neg h4] at hx
          by_cases h5 : c = '\n'
          · rw [if_pos h5] at hx
            exact (by decide : ∀ y ∈ ['\\', 'n'], y.toNat < 256) x hx
          · rw [if_neg h5] at hx
            by_cases h6 : c = '\x0c'
            · rw [if_pos h6] at hx
              exact (by decide : ∀ y ∈ ['\\', 'f'], y.toNat < 256) x hx
            · rw [if_neg h6] at hx
              by_cases h7 : c = '\r'
              · rw [if_pos h7] at hx
                exact (by decide : ∀ y ∈ ['\\', 'r'], y.toNat < 256) x hx
              · rw [if_neg h7] at hx
                by_cases h8 : c.toNat < 32
                · rw [if_pos h8] at hx
                  rcases List.mem_cons.mp hx with rfl | hx
                  · decide
                  rcases List.mem_cons.mp hx with rfl | hx
                  · decide
                  rcases List.mem_cons.mp hx with rfl | hx
                  · decide
                  rcases List.mem_cons.mp hx with rfl | hx
                  · decide
                  rcases List.mem_cons.mp hx with rfl | hx
                  · exact hexDigitChar_lt' (show c.toNat / 16 < 16 by omega)
                  rcases List.mem_cons.mp hx with rfl | hx
                  · exact hexDigitChar_lt' (show c.toNat % 16 < 16 by omega)
                  exact absurd hx (List.not_mem_nil x)
                · rw [if_neg h8] at hx
                  rcases List.mem_cons.mp hx with rfl | hx
                  · exact h
                  exact absurd hx (List.not_mem_nil x)

theorem escapeList_latin1 : ∀ cs : List Char, (∀ c ∈ cs, c.toNat < 256) →
    ∀ x ∈ escapeList cs, x.toNat < 256 := by
  intro cs
  induction cs with
  | nil =>
    intro _ x hx
    have hx2 : x ∈ ['"'] := hx
    rcases List.mem_cons.mp hx2 with rfl | hx3
    · decide
    exact absurd hx3 (List.not_mem_nil x)
  | cons c t ih =>
    intro h x hx
    have hx2 : x ∈ escapeChar c ++ escapeList t := hx
    rcases List.mem_append.mp hx2 with hx3 | hx3
    · exact escapeChar_latin1 c (h c (by simp)) x hx3
    · exact ih (fun d hd => h d (by simp [hd])) x hx3

theorem natToChars_latin1 (n : Nat) : ∀ x ∈ natToChars n, x.toNat < 256 := by
  intro x hx
  obtain ⟨d, hd, hcd⟩ := natToChars_shape n x hx
  subst hcd
  rw [digit_toNat' hd]
  omega

theorem strLatin1_chars {s : String} (h : strLatin1 s = true) :
    ∀ c ∈ s.data, c.toNat < 256 := by
  intro c hc
  have := List.all_eq_true.mp h c hc
  simpa using this

mutual

theorem serJson_latin1 : ∀ v : Json, jsonLatin1 v = true →
    ∀ c ∈ serJson v, c.toNat < 256
  | .null => fun _ => by decide
  | .bool b => fun _ => by cases b <;> decide
  | .num n => by
    intro _ c hc
    have hc2 : c ∈ intToChars n := hc
    unfold intToChars at hc2
    by_cases hneg : n < 0
    · rw [if_pos hneg] at hc2
      rcases List.mem_cons.mp hc2 with rfl | hc3
      · decide
      exact natToChars_latin1 _ c hc3
    · rw [if_neg hneg] at hc2
      exact natToChars_latin1 _ c hc2
  | .str s => by
    intro h c hc
    have hc2 : c ∈ '"' :: escapeList s.data := hc
    rcases List.mem_cons.mp hc2 with rfl | hc3
    · decide
    exact escapeList_latin1 s.data (strLatin1_chars h) c hc3
  | .arr [] => fun _ => by decide
  | .arr (v :: vs) => by
    intro h c hc
    have hv : jsonLatin1 v = true ∧ jsonListLatin1 vs = true := by
      have hh : (jsonLatin1 v && jsonListLatin1 vs) = true := h
      simpa using hh
    have hc2 : c ∈ '[' :: (serJson v ++ serElems vs) ++ [']'] := hc
    rcases List.mem_append.mp hc2 with hc3 | hc3
    · rcases List.mem_cons.mp hc3 with rfl | hc4
      · decide
      rcases List.mem_append.mp hc4 with hc5 | hc5
      · exact serJson_latin1 v hv.1 c hc5
      · exact serElems_latin1 vs hv.2 c hc5
    · rcases List.mem_cons.mp hc3 with rfl | hc4
      · decide
      exact absurd hc4 (List.not_mem_nil c)
  | .obj [] => fun _ => by decide
  | .obj ((k, v) :: fs) => by
    intro h c hc
    have hks : strLatin1 k = true ∧ jsonLatin1 v = true
        ∧ jsonFieldsLatin1 fs = true := by
      have hh : (strLatin1 k && jsonLatin1 v && jsonFieldsLatin1 fs) = true := h
      simpa [and_assoc] using hh
    have hc2 : c ∈ '\x7b' :: (escapeString k ++ ':' :: serJson v ++ serFields fs)
        ++ ['\x7d'] := hc
    rcases List.mem_append.mp hc2 with hc3 | hc3
    · rcases List.mem_cons.mp hc3 with rfl | hc4
      · decide
      rcases List.mem_append.mp hc4 with hc5 | hc5
      · rcases List.mem_append.mp hc5 with hc6 | hc6
        · have hc7 : c ∈ '"' :: escapeList k.data := hc6
          rcases List.mem_cons.mp hc7 with rfl | hc8
          · decide
          exact escapeList_latin1 k.data (strLatin1_chars hks.1) c hc8
        · rcases List.mem_cons.mp hc6 with rfl | hc7
          · decide
          exact serJson_latin1 v hks.2.1 c hc7
      · exact serFields_latin1 fs hks.2.2 c hc5
    · rcases List.mem_cons.mp hc3 with rfl | hc4
      · decide
      exact absurd hc4 (List.not_mem_nil c)

theorem serElems_latin1 : ∀ l : List Json, jsonListLatin1 l = true →
    ∀ c ∈ serElems l, c.toNat < 256
  | [] => by
    intro _ c hc
    have hc2 : c ∈ ([] : List Char) := hc
    exact absurd hc2 (List.not_mem_nil c)
  | v :: vs => by
    intro h c hc
    have hv : jsonLatin1 v = true ∧ jsonListLatin1 vs = true := by
      have hh : (jsonLatin1 v && jsonListLatin1 vs) = true := h
      simpa using hh
    have hc2 : c ∈ ',' :: (serJson v ++ serElems vs) := hc
    rcases List.mem_cons.mp hc2 with rfl | hc3
    · decide
    rcases List.mem_append.mp hc3 with hc4 | hc4
    · exact serJson_latin1 v hv.1 c hc4
    · exact serElems_latin1 vs hv.2 c hc4

theorem serFields_latin1 : ∀ fs : List (String × Json), jsonFieldsLatin1 fs = true →
    ∀ c ∈ serFields fs, c.toNat < 256
  | [] => by
    intro _ c hc
    have hc2 : c ∈ ([] : List Char) := hc
    exact absurd hc2 (List.not_mem_nil c)
  | (k, v) :: fs => by
    intro h c hc
    have hks : strLatin1 k = true ∧ jsonLatin1 v = true
        ∧ jsonFieldsLatin1 fs = true := by
      have hh : (strLatin1 k && jsonLatin1 v && jsonFieldsLatin1 fs) = true := h
      simpa [and_assoc] using hh
    have hc2 : c ∈ ',' :: (escapeString k ++ ':' :: serJson v ++ serFields fs) := hc
    rcases List.mem_cons.mp hc2 with rfl | hc3
    · decide
    rcases List.mem_append.mp hc3 with hc4 | hc4
    · rcases List.mem_append.mp hc4 with hc5 | hc5
      · have hc6 : c ∈ '"' :: escapeList k.data := hc5
        rcases List.mem_cons.mp hc6 with rfl | hc7
        · decide
        exact escapeList_latin1 k.data (strLatin1_chars hks.1) c hc7
      · rcases List.mem_cons.mp hc5 with rfl | hc6
        · decide
        exact serJson_latin1 v hks.2.1 c hc6
    · exact serFields_latin1 fs hks.2.2 c hc4

end


theorem stringify_latin1 (v : Json) (h : jsonLatin1 v = true) :
    strLatin1 (jsonStringify v) = true := by
  unfold strLatin1 jsonStringify
  apply List.all_eq_true.mpr
  intro c hc
  have hc2 : c ∈ serJson v := hc
  have := serJson_latin1 v h c hc2
  simpa using this

theorem decodeDetailField_encode (v : Json) (h : jsonLatin1 v = true) :
    ∃ enc, btoa (jsonStringify v) = some enc ∧ decodeDetailField enc = v := by
  obtain ⟨enc, he, hd⟩ := atob_btoa (jsonStringify v) (stringify_latin1 v h)
  refine ⟨enc, he, ?_⟩
  unfold decodeDetailField
  rw [hd]
  simp only []
  rw [jsonParse_stringify]

theorem decodeDetailField_total (s : String) :
    (atob s = none → decodeDetailField s = Json.null)
    ∧ (∀ d : String, atob s = some d → jsonParse d = none →
        decodeDetailField s = Json.null) := by
  constructor
  · intro h
    unfold decodeDetailField
    rw [h]
  · intro d h hj
    unfold decodeDetailField
    rw [h]
    simp only []
    rw [hj]


/-- C8: `decodeDetailField` inverts the encoding: for every JSON value (numbers
modelled as integers) whose strings fit in Latin-1 — the precondition `btoa`
itself imposes — serialising with `JSON.stringify`, encoding with `btoa` and
decoding with `decodeDetailField` returns the value unchanged; and on failing
input — a string `atob` rejects, or one whose decoded content `JSON.parse`
rejects — `decodeDetailField` returns the null sentinel instead of propagating
the exception. -/
theorem decodeDetailField_roundtrip_and_total :
    (∀ v : Json, jsonLatin1 v = true →
      ∃ enc, btoa (jsonStringify v) = some enc ∧ decodeDetailField enc = v)
    ∧ (∀ s : String, atob s = none → decodeDetailField s = Json.null)
    ∧ (∀ s d : String, atob s = some d → jsonParse d = none →
      decodeDetailField s = Json.null) := by
  refine ⟨decodeDetailField_encode, ?_, ?_⟩
  · intro s h
    exact (decodeDetailField_total s).1 h
  · intro s d h hj
    exact (decodeDetailField_total s).2 d h hj

theorem decodeDetailField_roundtrip_and_total_witness :
    (jsonLatin1 (Json.obj [("a", Json.arr [Json.num (-5), Json.str "x",
        Json.bool true]), ("b", Json.null)]) = true
      ∧ ∃ enc, btoa (jsonStringify (Json.obj [("a", Json.arr [Json.num (-5),
          Json.str "x", Json.bool true]), ("b", Json.null)])) = some enc
        ∧ decodeDetailField enc = Json.obj [("a", Json.arr [Json.num (-5),
            Json.str "x", Json.bool true]), ("b", Json.null)])
    ∧ (atob "!" = none ∧ decodeDetailField "!" = Json.null)
    ∧ (atob "eA==" = some "x" ∧ jsonParse "x" = none
        ∧ decodeDetailField "eA==" = Json.null) :=
  ⟨⟨by decide, decodeDetailField_roundtrip_and_total.1 _ (by decide)⟩,
   ⟨by decide, decodeDetailField_roundtrip_and_total.2.1 "!" (by decide)⟩,
   ⟨by decide, rfl,
     decodeDetailField_roundtrip_and_total.2.2 "eA==" "x" (by decide) rfl⟩⟩

end LockLLM
